import Mathlib

/-!
# go-set: a shallow embedding of the generic thread-safe set

Source files embedded here: `set.go`, `methods.go`, `helpers.go`, `json.go`.

## Data model

* `GoMap T` stands for Go's `map[T]struct{}`.  Only the keys matter (the value
  type is the unit marker `struct{}`), so a map is its list of keys, without
  duplicates.  The list order is the order in which a `for val := range m`
  loop visits the keys.  Go leaves this order unspecified; every theorem below
  is quantified over all maps, hence over every key order.
* `RWMutex` stands for `sync.RWMutex`: one exclusive holder or a number of
  shared holders.  The lock is not reentrant.  The embedding is sequential
  (one goroutine): a lock request that cannot be granted at once can never be
  granted later, since nobody else is there to release the lock, so the
  operation never returns.  Such an operation evaluates to `none`.
* `set T` is the struct `set[T]` with its two fields `s` and `mu`.

## Conventions

* A Go method that mutates the receiver returns the new receiver state.
* A read-only function returns its value only: its deferred `RUnlock` calls
  put the mutex back in the state found at entry, so the operands are unchanged.
* The two-set functions of `methods.go` take the two operands as two values.
  When both pointers designate the same object the single mutex is read-locked
  twice where here each operand is read-locked once; `RLock` is granted for
  every count of shared holders, so the outcome is the same.
* `IntersectionUpdate` locks its argument shared and its receiver exclusively, so
  there it matters whether both are one object: `set.IntersectionUpdate` is the
  call on two objects, `set.IntersectionUpdateSelf` the call `s.IntersectionUpdate(s)`.
* A range loop whose body changes the map is `rangeMut`: a key removed before
  it is reached is not visited, a key created by the body is not visited.
* `DoAsync` and `FilterAsync` start one goroutine per key; the goroutines only
  evaluate `f` and send to a channel large enough for all of them, so all that
  the schedule leaves behind is the order of the values in the channel.  That
  order is the argument `order`; the theorems hold for every rearrangement of
  the keys.  The package variable `countWorkers` is an argument too.
* `json.Marshal` and `json.Unmarshal` are arguments of the two JSON methods;
  `jsonUnmarshalInts` is the decoder for the payloads of a set of `int`.
* `len` is a `Nat`; variadic arguments and slices are lists.
* The theorems about read-only functions take operands whose mutex is not held
  exclusively (`mu.w = false`), those about mutating methods take a receiver
  whose mutex is free (`mu = RWMutex.zero`).  Every set is in that state
  between two calls: the constructors build the zero mutex and every method
  that returns has released what it acquired.
-/

namespace GoSet

/-! ## Go maps with unit values -/

/-- Go map `map[T]struct{}`: the keys in range order, each key once. -/
structure GoMap (T : Type) where
  keys : List T
  nodup : keys.Nodup
deriving DecidableEq

/-- State of a `sync.RWMutex`: `w` tells whether it is held exclusively, `r` counts
the shared holders. -/
structure RWMutex where
  w : Bool
  r : Nat
deriving DecidableEq, Repr

/-- The struct `set[T]` of `set.go`. -/
structure set (T : Type) where
  s : GoMap T
  mu : RWMutex
deriving DecidableEq

set_option linter.unusedSectionVars false

variable {T : Type} [DecidableEq T]

namespace GoMap

/-- Builtin `make(map[T]struct{}, size)`: an empty map; the capacity hint is not observable. -/
def make (_size : Nat) : GoMap T := ⟨[], List.nodup_nil⟩

/-- Builtin `len(m)`. -/
def len (m : GoMap T) : Nat := m.keys.length

/-- Lookup `_, ok := m[k]`. -/
def lookup (m : GoMap T) (k : T) : Bool := decide (k ∈ m.keys)

/-- Assignment `m[k] = struct{}{}`: nothing changes when the key is present, otherwise the
key is added. -/
def store (m : GoMap T) (k : T) : GoMap T :=
  if h : k ∈ m.keys then m
  else ⟨m.keys ++ [k], List.Nodup.append m.nodup (List.nodup_singleton k)
    (by
      intro x hx hx1
      rw [List.mem_singleton] at hx1
      exact h (hx1 ▸ hx))⟩

/-- Builtin `delete(m, k)`: a no-op when the key is absent. -/
def delete (m : GoMap T) (k : T) : GoMap T := ⟨m.keys.erase k, m.nodup.erase k⟩

/-- Builtin `clear(m)`. -/
def clear (_m : GoMap T) : GoMap T := ⟨[], List.nodup_nil⟩

/-- The keys in the order a `for val := range m` loop produces them. -/
def range (m : GoMap T) : List T := m.keys

end GoMap

/-! ## The reader/writer lock -/

namespace RWMutex

/-- The zero value of `sync.RWMutex`: an unlocked mutex. -/
def zero : RWMutex := ⟨false, 0⟩

/-- Exclusive `Lock()`: granted only when nobody holds the mutex. -/
def Lock (m : RWMutex) : Option RWMutex :=
  if m.w = false ∧ m.r = 0 then some ⟨true, 0⟩ else none

/-- Release `Unlock()`. -/
def Unlock (m : RWMutex) : RWMutex := ⟨false, m.r⟩

/-- Shared `RLock()`: granted unless the mutex is held exclusively. -/
def RLock (m : RWMutex) : Option RWMutex :=
  if m.w = false then some ⟨false, m.r + 1⟩ else none

/-- Release `RUnlock()`. -/
def RUnlock (m : RWMutex) : RWMutex := ⟨m.w, m.r - 1⟩

end RWMutex

namespace set

/-- Call `s.mu.Lock()`. -/
def muLock (s : set T) : Option (set T) := (s.mu.Lock).map (fun m => { s with mu := m })

/-- Call `s.mu.Unlock()`. -/
def muUnlock (s : set T) : set T := { s with mu := s.mu.Unlock }

/-- Call `s.mu.RLock()`. -/
def muRLock (s : set T) : Option (set T) := (s.mu.RLock).map (fun m => { s with mu := m })

/-- Call `s.mu.RUnlock()`. -/
def muRUnlock (s : set T) : set T := { s with mu := s.mu.RUnlock }

end set

/-! ## helpers.go -/

/-- Function `getZeroValue[T]()`: the zero value of `T`, here the default element. -/
def getZeroValue [Inhabited T] : T := default

/-! ## set.go -/

/-- Method `exists`: the internal Exists, without the mutex. -/
def set.exists (s : set T) (e : T) : Bool := s.s.lookup e

/-- Function `NewEmptySet(size)`. -/
def NewEmptySet (size : Nat) : set T := ⟨GoMap.make size, RWMutex.zero⟩

namespace set

/-- Method `insert`: the internal Insert, without the mutex. -/
def insert (s : set T) (e : List T) : set T :=
  e.foldl (fun acc val => { acc with s := acc.s.store val }) s


/-- Method `delete`: the internal Delete, without the mutex. -/
def delete (s : set T) (e : T) : set T := { s with s := s.s.delete e }

/-- Method `clear`: the internal Clear, without the mutex. -/
def clear (s : set T) : set T := { s with s := s.s.clear }

/-- Method `Empty`. -/
def Empty (s : set T) : Option Bool := do
  let s ← s.muRLock
  return s.s.len == 0

/-- Method `Size`. -/
def Size (s : set T) : Option Nat := do
  let s ← s.muRLock
  return s.s.len

/-- Method `Insert`. -/
def Insert (s : set T) (e : List T) : Option (set T) := do
  let s ← s.muLock
  let s := s.insert e
  return s.muUnlock

/-- Method `Exists`. -/
def Exists (s : set T) (e : T) : Option Bool := do
  let s ← s.muRLock
  return s.exists e

/-- Method `Delete`. -/
def Delete (s : set T) (e : T) : Option (set T) := do
  let s ← s.muLock
  let s := s.delete e
  return s.muUnlock

/-- Method `Clear`. -/
def Clear (s : set T) : Option (set T) := do
  let s ← s.muLock
  let s := { s with s := s.s.clear }
  return s.muUnlock

/-- Method `Pop`: returns the popped value and the new receiver state.  The size test goes
through the public `Size`, which asks for the shared lock while the exclusive one is held. -/
def Pop [Inhabited T] (s : set T) : Option (T × set T) := do
  let s ← s.muLock
  let result : T := getZeroValue
  let size ← s.Size
  if size == 0 then
    return (result, s.muUnlock)
  match s.s.range with
  | [] => return (result, s.muUnlock)
  | val :: _ =>
    let s := s.delete val
    return (val, s.muUnlock)

end set

/-- Function `NewSet(e...)`. -/
def NewSet (e : List T) : set T :=
  e.foldl (fun acc val => acc.insert [val]) (⟨GoMap.make e.length, RWMutex.zero⟩ : set T)

/-! ## methods.go -/

/-- Function `Difference(original, different)`. -/
def Difference (original different : set T) : Option (set T) := do
  let original ← original.muRLock
  let different ← different.muRLock
  let diffSet : set T := NewEmptySet 0
  let diffSet := original.s.range.foldl
    (fun acc val => if !different.exists val then acc.insert [val] else acc) diffSet
  return diffSet

/-- Function `Intersection(s1, s2)`: the smaller operand is scanned, the larger one probed. -/
def Intersection (s1 s2 : set T) : Option (set T) := do
  let s1 ← s1.muRLock
  let s2 ← s2.muRLock
  let (s1, s2) := if s1.s.len > s2.s.len then (s2, s1) else (s1, s2)
  let intersectionSet : set T := NewEmptySet 0
  let intersectionSet := s1.s.range.foldl
    (fun acc val => if s2.exists val then acc.insert [val] else acc) intersectionSet
  return intersectionSet

/-- Function `Union(s1, s2)`: the larger length is only the capacity hint of the result. -/
def Union (s1 s2 : set T) : Option (set T) := do
  let s1 ← s1.muRLock
  let s2 ← s2.muRLock
  let (l1, l2) := (s1.s.len, s2.s.len)
  let (l1, _l2) := if l1 < l2 then (l2, l1) else (l1, l2)
  let unionSet : set T := NewEmptySet l1
  let unionSet := s1.s.range.foldl (fun acc val => acc.insert [val]) unionSet
  let unionSet := s2.s.range.foldl (fun acc val => acc.insert [val]) unionSet
  return unionSet

/-- Function `SymmetricDifference(s1, s2)`. -/
def SymmetricDifference (s1 s2 : set T) : Option (set T) := do
  let s1 ← s1.muRLock
  let s2 ← s2.muRLock
  let newSet : set T := NewEmptySet 0
  let newSet := s1.s.range.foldl
    (fun acc val => if !s2.exists val then acc.insert [val] else acc) newSet
  let newSet := s2.s.range.foldl
    (fun acc val => if !s1.exists val then acc.insert [val] else acc) newSet
  return newSet

/-- The loop of `IsSubSet`: it returns `false` at the first element of `s1` that the public
`s2.Exists` does not find, and `true` when the keys are exhausted. -/
def IsSubSet.loop (s2 : set T) : List T → Option Bool
  | [] => some true
  | val :: rest => do
    let found ← s2.Exists val
    if !found then
      return false
    IsSubSet.loop s2 rest

/-- Function `IsSubSet(s1, s2)`. -/
def IsSubSet (s1 s2 : set T) : Option Bool := do
  let s1 ← s1.muRLock
  let s2 ← s2.muRLock
  if s1.s.len < s2.s.len then
    return false
  IsSubSet.loop s2 s1.s.range

/-- Function `Equal(s1, s2)`.  The test `s1 == nil || s2 == nil` sits after both `RLock`
calls, which dereference the pointers, so both are non-nil there and the branch is not taken. -/
def Equal (s1 s2 : set T) : Option Bool := do
  let s1 ← s1.muRLock
  let s2 ← s2.muRLock
  if s1.s.len != s2.s.len then
    return false
  let diffSet ← Difference s1 s2
  return diffSet.s.len == 0

/-! ## set.go: loops that change the map they range over, and the worker variants -/

/-- Loop `for val := range s.s { body }` whose body changes `s.s`.  The first list holds the keys
not reached yet, in range order (all keys of the map when the loop starts).  Go does not
produce a key that was removed before it is reached, whence the test `s.exists val`.  For a
key created by the body Go may produce it later or skip it; here it is skipped, which is
exact for the bodies that only remove keys and is one of the allowed runs for the others. -/
def rangeMut (body : set T → T → Option (set T)) : List T → set T → Option (set T)
  | [], s => some s
  | val :: rest, s =>
    if s.exists val then (body s val).bind (fun s1 => rangeMut body rest s1)
    else rangeMut body rest s

namespace set

/-- Method `ToSlice`. -/
def ToSlice (s : set T) : Option (List T) := do
  let s ← s.muRLock
  let resultSlice := s.s.range.foldl (fun acc val => acc ++ [val]) []
  return resultSlice

/-- Method `IntersectionUpdate(src)`, receiver and `src` being two objects: returns the new
receiver and `src` after the deferred unlocks.  The probe goes through the public
`src.Exists`, which read-locks `src` once more. -/
def IntersectionUpdate (s src : set T) : Option (set T × set T) := do
  let src ← src.muRLock
  let s ← s.muLock
  let s ← rangeMut (fun s val => do
    let found ← src.Exists val
    if !found then
      return s.delete val
    return s) s.s.range s
  return (s.muUnlock, src.muRUnlock)

/-- Call `s.IntersectionUpdate(s)`: receiver and `src` are the same object, so both lock
requests go to the one mutex. -/
def IntersectionUpdateSelf (s : set T) : Option (set T) := do
  let s ← s.muRLock
  let s ← s.muLock
  let s ← rangeMut (fun s val => do
    let found ← s.Exists val
    if !found then
      return s.delete val
    return s) s.s.range s
  return s.muUnlock.muRUnlock

/-- Method `Do`.  The body creates keys; as in `rangeMut` they are not visited here, whereas Go
may also visit them, so the code has further runs besides this one. -/
def Do (s : set T) (f : T → T) : Option (set T) := do
  let s ← s.muLock
  let s ← rangeMut (fun s val =>
    let s := s.delete val
    let newVal := f val
    some (s.insert [newVal])) s.s.range s
  return s.muUnlock

/-- Method `Filter`. -/
def Filter (s : set T) (f : T → Bool) : Option (set T) := do
  let s ← s.muLock
  let s ← rangeMut (fun s val => if !f val then some (s.delete val) else some s) s.s.range s
  return s.muUnlock

end set

/-- Function `getCountWorkers(lenSet)` of helpers.go; the package variable `countWorkers`
(`runtime.NumCPU()`) is the first argument. -/
def getCountWorkers (countWorkers : Nat) (lenSet : Nat) : Nat := min countWorkers lenSet

namespace set

/-- Method `DoAsync`.  One goroutine per key computes `f(v)` and sends it to the channel
`chValuesToInsert`, whose buffer holds `lenSet` values, so no send waits; after `wg.Wait()`
the channel holds the results in the order the workers sent them.  `order` lists the keys in
that order (a rearrangement of the range order, chosen by the scheduler).  With a semaphore
of capacity zero the first `sem <- struct{}{}` would wait forever. -/
def DoAsync (countWorkers : Nat) (s : set T) (f : T → T) (order : List T) :
    Option (set T) := do
  let s ← s.muLock
  let lenSet := s.s.len
  let workers := getCountWorkers countWorkers lenSet
  if workers = 0 ∧ lenSet ≠ 0 then
    none
  let chValuesToInsert := order.map f
  let s := s.clear
  let s := chValuesToInsert.foldl (fun acc valToInsert => acc.insert [valToInsert]) s
  return s.muUnlock

/-- Method `FilterAsync`.  One goroutine per key evaluates `f(v)` and sends `v` to the channel
`chValuesToDelete` when the result is false; `order` lists the keys in the order in which the
workers reach their send.  After `wg.Wait()` every queued value is deleted. -/
def FilterAsync (countWorkers : Nat) (s : set T) (f : T → Bool) (order : List T) :
    Option (set T) := do
  let s ← s.muLock
  let lenSet := s.s.len
  let workers := getCountWorkers countWorkers lenSet
  if workers = 0 ∧ lenSet ≠ 0 then
    none
  let chValuesToDelete := order.filter (fun v => !f v)
  let s := chValuesToDelete.foldl (fun acc valToDelete => acc.delete valToDelete) s
  return s.muUnlock

end set

/-! ## json.go

The functions `json.Marshal` and `json.Unmarshal` belong to the standard library; they enter
as the arguments `marshal` and `unmarshal`.  A byte slice is a list of numbers, a Go `error`
is an optional value (`none` for `nil`). -/

/-- Modelled from the spec: the method `extendFromSlice` that `UnmarshalJSON` calls is not
defined in the source files (only the public `ExtendFromSlice` is).  By the spec every public
operation has an internal lock-free counterpart, and `ExtendFromSlice` inserts every element
of the sequence, duplicates being absorbed. -/
def set.extendFromSlice (s : set T) (slice : List T) : set T :=
  slice.foldl (fun acc val => acc.insert [val]) s

/-- Method `MarshalJSON`. -/
def set.MarshalJSON {E : Type} (marshal : List T → Except E (List Nat)) (s : set T) :
    Option (Except E (List Nat)) := do
  let elements ← s.ToSlice
  return marshal elements

/-- Method `UnmarshalJSON`: returns the error and the new receiver state. -/
def set.UnmarshalJSON {E : Type} (unmarshal : List Nat → Except E (List T)) (s : set T)
    (data : List Nat) : Option (Option E × set T) := do
  let s ← s.muLock
  match unmarshal data with
  | Except.error err => return (some err, s.muUnlock)
  | Except.ok elements =>
    let s := s.clear
    let s := s.extendFromSlice elements
    return (none, s.muUnlock)

/-! ## encoding/json: decoding a payload into a slice of int

The call `json.Unmarshal(data, &elements)` of `UnmarshalJSON`, for `elements` a nil `[]int`
(64-bit `int`), after the documentation of the package.  The payload must be one JSON value,
white space allowed around it and between its tokens.  The value `null` leaves the slice nil
and is no error.  An array is decoded element by element: an integer literal within the range
of `int` gives its value, `null` leaves the element at zero.  Every other payload is an error:
a syntax error, or a type error (a value of another kind, a number with a fraction or an
exponent, a number out of range). -/

/-- Sequence of `n` successive calls `s.Insert(v)`, each on the state left by the one before. -/
def InsertTimes (s : set T) (v : T) : Nat → Option (set T)
  | 0 => some s
  | n + 1 => (s.Insert [v]).bind (fun s1 => InsertTimes s1 v n)

/-- An example encoder for sets of natural numbers, used to instantiate the statements about
`MarshalJSON`: the payload is the marker 0 followed by the elements. -/
def exampleMarshal (l : List Nat) : Except Nat (List Nat) := Except.ok (0 :: l)

/-- The decoder that goes with `exampleMarshal`: a payload without the marker is rejected with
the error code 1. -/
def exampleUnmarshal : List Nat → Except Nat (List Nat)
  | 0 :: rest => Except.ok rest
  | _ => Except.error 1

/-! ## Basic facts about maps, locks and the internal helpers -/

theorem GoMap.mem_store (m : GoMap T) (k x : T) :
    x ∈ (m.store k).keys ↔ x = k ∨ x ∈ m.keys := by
  unfold GoMap.store
  by_cases h : k ∈ m.keys
  · simp only [h, dite_true]
    constructor
    · intro hx; exact Or.inr hx
    · rintro (rfl | hx)
      · exact h
      · exact hx
  · simp only [h, dite_false, List.mem_append, List.mem_singleton]
    tauto

theorem GoMap.store_of_mem (m : GoMap T) (k : T) (h : k ∈ m.keys) :
    m.store k = m := by
  unfold GoMap.store
  simp only [h, dite_true]

theorem GoMap.len_store_of_not_mem (m : GoMap T) (k : T) (h : k ∉ m.keys) :
    (m.store k).len = m.len + 1 := by
  unfold GoMap.store GoMap.len
  simp only [h, dite_false, List.length_append, List.length_singleton]

theorem GoMap.mem_delete (m : GoMap T) (k x : T) :
    x ∈ (m.delete k).keys ↔ x ≠ k ∧ x ∈ m.keys := by
  unfold GoMap.delete
  exact m.nodup.mem_erase_iff

theorem GoMap.len_delete_of_mem (m : GoMap T) (k : T) (h : k ∈ m.keys) :
    (m.delete k).len + 1 = m.len := by
  unfold GoMap.delete GoMap.len
  simp only [List.length_erase_of_mem h]
  have : 0 < m.keys.length := List.length_pos_of_mem h
  omega

theorem GoMap.delete_of_not_mem (m : GoMap T) (k : T) (h : k ∉ m.keys) :
    m.delete k = m := by
  cases m with
  | mk keys nodup =>
    simp only [GoMap.delete, GoMap.mk.injEq]
    exact List.erase_of_not_mem h

theorem set.exists_iff (s : set T) (x : T) : s.exists x = true ↔ x ∈ s.s.keys := by
  simp [set.exists, GoMap.lookup]

theorem set.exists_false_iff (s : set T) (x : T) : s.exists x = false ↔ x ∉ s.s.keys := by
  simp [set.exists, GoMap.lookup]

theorem set.mem_insert (e : List T) (s : set T) (x : T) :
    x ∈ (s.insert e).s.keys ↔ x ∈ e ∨ x ∈ s.s.keys := by
  unfold set.insert
  induction e generalizing s with
  | nil => simp
  | cons v rest ih =>
    rw [List.foldl_cons, ih]
    simp only [GoMap.mem_store, List.mem_cons]
    tauto

theorem set.insert_mu (e : List T) (s : set T) : (s.insert e).mu = s.mu := by
  unfold set.insert
  induction e generalizing s with
  | nil => rfl
  | cons v rest ih => rw [List.foldl_cons, ih]

/-- Membership after a loop that inserts the visited values satisfying `p`. -/
theorem mem_foldl_insert_if (p : T → Bool) (l : List T) (init : set T) (x : T) :
    x ∈ (l.foldl (fun acc val => if p val then acc.insert [val] else acc) init).s.keys
      ↔ x ∈ init.s.keys ∨ (x ∈ l ∧ p x = true) := by
  induction l generalizing init with
  | nil => simp
  | cons v rest ih =>
    rw [List.foldl_cons, ih]
    by_cases hx : x = v
    · subst hx
      by_cases hv : p x = true
      · simp [hv, set.mem_insert]
      · simp [hv]
    · by_cases hv : p v = true
      · simp [hv, set.mem_insert, hx]
      · simp [hv, hx]

/-- The mutex field is untouched by a loop that inserts the visited values satisfying `p`. -/
theorem foldl_insert_if_mu (p : T → Bool) (l : List T) (init : set T) :
    (l.foldl (fun acc val => if p val then acc.insert [val] else acc) init).mu = init.mu := by
  induction l generalizing init with
  | nil => rfl
  | cons v rest ih =>
    rw [List.foldl_cons, ih]
    by_cases hv : p v = true
    · simp [hv, set.insert_mu]
    · simp [hv]

/-- Membership after a loop that inserts every visited value. -/
theorem mem_foldl_insert (l : List T) (init : set T) (x : T) :
    x ∈ (l.foldl (fun acc val => acc.insert [val]) init).s.keys
      ↔ x ∈ init.s.keys ∨ x ∈ l := by
  have h := mem_foldl_insert_if (fun _ => true) l init x
  simpa using h

theorem set.muRLock_eq (s : set T) (h : s.mu.w = false) :
    s.muRLock = some { s with mu := ⟨false, s.mu.r + 1⟩ } := by
  simp [set.muRLock, RWMutex.RLock, h]

theorem set.muLock_eq (s : set T) (h : s.mu = RWMutex.zero) :
    s.muLock = some { s with mu := ⟨true, 0⟩ } := by
  simp [set.muLock, RWMutex.Lock, h, RWMutex.zero]

theorem mem_NewSet (e : List T) (x : T) : x ∈ (NewSet e).s.keys ↔ x ∈ e := by
  unfold NewSet
  rw [mem_foldl_insert]
  simp [GoMap.make]

theorem NewSet_mu (e : List T) : (NewSet e).mu = RWMutex.zero := by
  unfold NewSet
  have h := foldl_insert_if_mu (fun _ => true) e (⟨GoMap.make e.length, RWMutex.zero⟩ : set T)
  simpa using h

/-- Two maps with the same keys have the same length. -/
theorem GoMap.len_eq_of_mem_iff (a b : GoMap T) (h : ∀ x, x ∈ a.keys ↔ x ∈ b.keys) :
    a.len = b.len :=
  ((List.perm_ext_iff_of_nodup a.nodup b.nodup).2 h).length_eq

/-- A map included in a map that is not longer holds all the keys of that map. -/
theorem GoMap.superset_of_subset_of_len_le (a b : GoMap T)
    (h : ∀ x, x ∈ a.keys → x ∈ b.keys) (hl : b.len ≤ a.len) :
    ∀ x, x ∈ b.keys → x ∈ a.keys := by
  have hsub : a.keys.Subperm b.keys := List.subperm_of_subset a.nodup h
  have hperm : a.keys.Perm b.keys := hsub.perm_of_length_le hl
  intro x hx
  exact hperm.mem_iff.2 hx

theorem GoMap.len_eq_zero_iff (a : GoMap T) : a.len = 0 ↔ ∀ x, x ∉ a.keys := by
  unfold GoMap.len
  rw [List.length_eq_zero, List.eq_nil_iff_forall_not_mem]

/-! ## What the functions of methods.go compute once their locks are granted -/

theorem Difference_eq (A B : set T) (hA : A.mu.w = false) (hB : B.mu.w = false) :
    Difference A B = some (A.s.keys.foldl
      (fun acc val => if !B.exists val then acc.insert [val] else acc) (NewEmptySet 0)) := by
  simp [Difference, set.muRLock_eq, hA, hB, GoMap.range, set.exists]

theorem Intersection_eq (A B : set T) (hA : A.mu.w = false) (hB : B.mu.w = false) :
    Intersection A B = some (if A.s.len > B.s.len
      then B.s.keys.foldl (fun acc val => if A.exists val then acc.insert [val] else acc)
        (NewEmptySet 0)
      else A.s.keys.foldl (fun acc val => if B.exists val then acc.insert [val] else acc)
        (NewEmptySet 0)) := by
  by_cases h : A.s.len > B.s.len
  · simp [Intersection, set.muRLock_eq, hA, hB, GoMap.range, set.exists, h]
  · simp [Intersection, set.muRLock_eq, hA, hB, GoMap.range, set.exists, h]

theorem Union_eq (A B : set T) (hA : A.mu.w = false) (hB : B.mu.w = false) :
    Union A B = some (B.s.keys.foldl (fun acc val => acc.insert [val])
      (A.s.keys.foldl (fun acc val => acc.insert [val])
        (NewEmptySet (if A.s.len < B.s.len then B.s.len else A.s.len)))) := by
  by_cases h : A.s.len < B.s.len
  · simp [Union, set.muRLock_eq, hA, hB, GoMap.range, h]
  · simp [Union, set.muRLock_eq, hA, hB, GoMap.range, h]

theorem SymmetricDifference_eq (A B : set T) (hA : A.mu.w = false) (hB : B.mu.w = false) :
    SymmetricDifference A B = some (B.s.keys.foldl
      (fun acc val => if !A.exists val then acc.insert [val] else acc)
      (A.s.keys.foldl (fun acc val => if !B.exists val then acc.insert [val] else acc)
        (NewEmptySet 0))) := by
  simp [SymmetricDifference, set.muRLock_eq, hA, hB, GoMap.range, set.exists]

theorem Equal_eq (A B : set T) (hA : A.mu.w = false) (hB : B.mu.w = false) :
    Equal A B = some (if A.s.len != B.s.len then false
      else (A.s.keys.foldl (fun acc val => if !B.exists val then acc.insert [val] else acc)
        (NewEmptySet 0)).s.len == 0) := by
  unfold Equal
  rw [set.muRLock_eq A hA, set.muRLock_eq B hB]
  simp only [Option.bind_eq_bind, Option.some_bind]
  rw [Difference_eq _ _ rfl rfl]
  by_cases h : A.s.len = B.s.len
  · simp [h, set.exists]
  · simp [h]

theorem set.Exists_eq (s : set T) (h : s.mu.w = false) (e : T) :
    s.Exists e = some (s.exists e) := by
  simp [set.Exists, set.muRLock_eq, h, set.exists]

theorem IsSubSet.loop_eq (s2 : set T) (h : s2.mu.w = false) (l : List T) :
    IsSubSet.loop s2 l = some (l.all (fun v => s2.exists v)) := by
  induction l with
  | nil => rfl
  | cons v rest ih =>
    unfold IsSubSet.loop
    rw [set.Exists_eq s2 h, ih]
    cases hv : s2.exists v <;> simp [hv]

theorem IsSubSet_eq (A B : set T) (hA : A.mu.w = false) (hB : B.mu.w = false) :
    IsSubSet A B = some (if A.s.len < B.s.len then false
      else A.s.keys.all (fun v => B.exists v)) := by
  unfold IsSubSet
  rw [set.muRLock_eq A hA, set.muRLock_eq B hB]
  simp only [Option.bind_eq_bind, Option.some_bind]
  rw [IsSubSet.loop_eq _ rfl]
  by_cases h : A.s.len < B.s.len
  · simp [h]
  · simp [h, GoMap.range, set.exists]

/-- The two-step test of `Equal` succeeds exactly on sets with the same elements. -/
theorem Equal_eq_true_iff (A B : set T) (hA : A.mu.w = false) (hB : B.mu.w = false) :
    Equal A B = some true ↔ ∀ x, x ∈ A.s.keys ↔ x ∈ B.s.keys := by
  rw [Equal_eq A B hA hB]
  have hD : ∀ x, x ∈ (A.s.keys.foldl
      (fun acc val => if !B.exists val then acc.insert [val] else acc)
      (NewEmptySet 0)).s.keys ↔ (x ∈ A.s.keys ∧ x ∉ B.s.keys) := by
    intro x
    rw [mem_foldl_insert_if (fun val => !B.exists val)]
    simp [NewEmptySet, GoMap.make, set.exists, GoMap.lookup]
  constructor
  · intro h
    by_cases hl : A.s.len = B.s.len
    · simp only [hl, bne_self_eq_false, Bool.false_eq_true, if_false, Option.some.injEq,
        beq_iff_eq] at h
      rw [GoMap.len_eq_zero_iff] at h
      have hsub : ∀ x, x ∈ A.s.keys → x ∈ B.s.keys := by
        intro x hx
        by_contra hxB
        exact h x ((hD x).2 ⟨hx, hxB⟩)
      intro x
      exact ⟨hsub x, GoMap.superset_of_subset_of_len_le A.s B.s hsub (le_of_eq hl.symm) x⟩
    · simp [hl] at h
  · intro h
    have hl : A.s.len = B.s.len := GoMap.len_eq_of_mem_iff A.s B.s h
    simp only [hl, bne_self_eq_false, Bool.false_eq_true, if_false, Option.some.injEq,
      beq_iff_eq]
    rw [GoMap.len_eq_zero_iff]
    intro x hx
    have := (hD x).1 hx
    exact this.2 ((h x).1 this.1)

/-! ## Elements of the results of the set-algebra functions -/

theorem Difference_mem (A B : set T) (hA : A.mu.w = false) (hB : B.mu.w = false) :
    ∃ D, Difference A B = some D ∧ D.mu.w = false ∧
      ∀ x, x ∈ D.s.keys ↔ (x ∈ A.s.keys ∧ x ∉ B.s.keys) := by
  refine ⟨_, Difference_eq A B hA hB, ?_, ?_⟩
  · rw [foldl_insert_if_mu (fun val => !B.exists val)]
    rfl
  · intro x
    rw [mem_foldl_insert_if (fun val => !B.exists val)]
    simp [NewEmptySet, GoMap.make, set.exists, GoMap.lookup]

theorem Intersection_mem (A B : set T) (hA : A.mu.w = false) (hB : B.mu.w = false) :
    ∃ D, Intersection A B = some D ∧ D.mu.w = false ∧
      ∀ x, x ∈ D.s.keys ↔ (x ∈ A.s.keys ∧ x ∈ B.s.keys) := by
  refine ⟨_, Intersection_eq A B hA hB, ?_, ?_⟩
  · by_cases h : A.s.len > B.s.len
    · rw [if_pos h, foldl_insert_if_mu (fun val => A.exists val)]
      rfl
    · rw [if_neg h, foldl_insert_if_mu (fun val => B.exists val)]
      rfl
  · intro x
    by_cases h : A.s.len > B.s.len
    · rw [if_pos h, mem_foldl_insert_if (fun val => A.exists val)]
      simp [NewEmptySet, GoMap.make, set.exists, GoMap.lookup]
      tauto
    · rw [if_neg h, mem_foldl_insert_if (fun val => B.exists val)]
      simp [NewEmptySet, GoMap.make, set.exists, GoMap.lookup]

theorem Union_mem (A B : set T) (hA : A.mu.w = false) (hB : B.mu.w = false) :
    ∃ D, Union A B = some D ∧ D.mu.w = false ∧
      ∀ x, x ∈ D.s.keys ↔ (x ∈ A.s.keys ∨ x ∈ B.s.keys) := by
  refine ⟨_, Union_eq A B hA hB, ?_, ?_⟩
  · have h1 := foldl_insert_if_mu (fun _ => true) B.s.keys
      (A.s.keys.foldl (fun acc val => acc.insert [val])
        (NewEmptySet (if A.s.len < B.s.len then B.s.len else A.s.len)))
    have h2 := foldl_insert_if_mu (fun _ => true) A.s.keys
      (NewEmptySet (if A.s.len < B.s.len then B.s.len else A.s.len) : set T)
    simp only [if_true] at h1 h2
    rw [h1, h2]
    rfl
  · intro x
    rw [mem_foldl_insert, mem_foldl_insert]
    simp [NewEmptySet, GoMap.make]

theorem SymmetricDifference_mem (A B : set T) (hA : A.mu.w = false) (hB : B.mu.w = false) :
    ∃ D, SymmetricDifference A B = some D ∧ D.mu.w = false ∧
      ∀ x, x ∈ D.s.keys ↔ ((x ∈ A.s.keys ∧ x ∉ B.s.keys) ∨ (x ∈ B.s.keys ∧ x ∉ A.s.keys)) := by
  refine ⟨_, SymmetricDifference_eq A B hA hB, ?_, ?_⟩
  · rw [foldl_insert_if_mu (fun val => !A.exists val),
      foldl_insert_if_mu (fun val => !B.exists val)]
    rfl
  · intro x
    rw [mem_foldl_insert_if (fun val => !A.exists val),
      mem_foldl_insert_if (fun val => !B.exists val)]
    simp [NewEmptySet, GoMap.make, set.exists, GoMap.lookup]

/-! ## Set algebra: Difference, Union, Intersection, SymmetricDifference -/

/-- C1: for all sets A and B whose locks can be read-acquired, `Difference(A, B)` returns a set
in which a value exists iff it exists in A and does not exist in B; and
`Difference(NewSet(1,2,3), NewSet(2,3))` is `Equal` to `NewSet(1)`. -/
theorem Difference_contract (A B : set T) (hA : A.mu.w = false) (hB : B.mu.w = false) :
    (∃ D, Difference A B = some D ∧
      ∀ x, D.exists x = true ↔ (A.exists x = true ∧ B.exists x = false)) ∧
    ((Difference (NewSet [1, 2, 3] : set Int) (NewSet [2, 3])).bind
      (fun d => Equal d (NewSet [1]))) = some true := by
  refine ⟨?_, by decide⟩
  obtain ⟨D, hD, _, hmem⟩ := Difference_mem A B hA hB
  refine ⟨D, hD, fun x => ?_⟩
  rw [set.exists_iff, set.exists_iff, set.exists_false_iff]
  exact hmem x

theorem Difference_contract_witness :
    (NewSet [4, 5, 6] : set Int).mu.w = false ∧ (NewSet [5, 7] : set Int).mu.w = false ∧
    ((∃ D, Difference (NewSet [4, 5, 6] : set Int) (NewSet [5, 7]) = some D ∧
      ∀ x, D.exists x = true ↔
        ((NewSet [4, 5, 6] : set Int).exists x = true ∧
          (NewSet [5, 7] : set Int).exists x = false)) ∧
    ((Difference (NewSet [1, 2, 3] : set Int) (NewSet [2, 3])).bind
      (fun d => Equal d (NewSet [1]))) = some true) :=
  ⟨by decide, by decide, Difference_contract (NewSet [4, 5, 6]) (NewSet [5, 7])
    (by decide) (by decide)⟩

/-- C2: for all sets A and B whose locks can be read-acquired, `Union(A, B)` returns a set in
which a value exists iff it exists in A or in B, whichever operand is the larger one; and
`Union(NewSet(1,2,3), NewSet(4,5,6))` is `Equal` to `NewSet(1,2,3,4,5,6)`. -/
theorem Union_contract (A B : set T) (hA : A.mu.w = false) (hB : B.mu.w = false) :
    (∃ U, Union A B = some U ∧
      ∀ x, U.exists x = true ↔ (A.exists x = true ∨ B.exists x = true)) ∧
    ((Union (NewSet [1, 2, 3] : set Int) (NewSet [4, 5, 6])).bind
      (fun u => Equal u (NewSet [1, 2, 3, 4, 5, 6]))) = some true := by
  refine ⟨?_, by decide⟩
  obtain ⟨U, hU, _, hmem⟩ := Union_mem A B hA hB
  refine ⟨U, hU, fun x => ?_⟩
  rw [set.exists_iff, set.exists_iff, set.exists_iff]
  exact hmem x

theorem Union_contract_witness :
    (NewSet [1] : set Int).mu.w = false ∧ (NewSet [1, 2, 3] : set Int).mu.w = false ∧
    ((∃ U, Union (NewSet [1] : set Int) (NewSet [1, 2, 3]) = some U ∧
      ∀ x, U.exists x = true ↔
        ((NewSet [1] : set Int).exists x = true ∨
          (NewSet [1, 2, 3] : set Int).exists x = true)) ∧
    ((Union (NewSet [1, 2, 3] : set Int) (NewSet [4, 5, 6])).bind
      (fun u => Equal u (NewSet [1, 2, 3, 4, 5, 6]))) = some true) :=
  ⟨by decide, by decide, Union_contract (NewSet [1]) (NewSet [1, 2, 3]) (by decide) (by decide)⟩

/-- C3: for all sets A and B whose locks can be read-acquired, `Intersection(A, B)` returns a
set in which a value exists iff it exists in both A and B, whether or not the operands are
swapped internally; `Intersection(B, A)` returns a set too and `Equal` finds the two results
equal. -/
theorem Intersection_contract (A B : set T) (hA : A.mu.w = false) (hB : B.mu.w = false) :
    ∃ I J, Intersection A B = some I ∧ Intersection B A = some J ∧
      (∀ x, I.exists x = true ↔ (A.exists x = true ∧ B.exists x = true)) ∧
      Equal I J = some true := by
  obtain ⟨I, hI, hIw, hImem⟩ := Intersection_mem A B hA hB
  obtain ⟨J, hJ, hJw, hJmem⟩ := Intersection_mem B A hB hA
  refine ⟨I, J, hI, hJ, fun x => ?_, ?_⟩
  · rw [set.exists_iff, set.exists_iff, set.exists_iff]
    exact hImem x
  · rw [Equal_eq_true_iff I J hIw hJw]
    intro x
    rw [hImem, hJmem]
    exact and_comm

theorem Intersection_contract_witness :
    (NewSet [1, 2, 3] : set Int).mu.w = false ∧ (NewSet [3, 2] : set Int).mu.w = false ∧
    ∃ I J, Intersection (NewSet [1, 2, 3] : set Int) (NewSet [3, 2]) = some I ∧
      Intersection (NewSet [3, 2] : set Int) (NewSet [1, 2, 3]) = some J ∧
      (∀ x, I.exists x = true ↔
        ((NewSet [1, 2, 3] : set Int).exists x = true ∧
          (NewSet [3, 2] : set Int).exists x = true)) ∧
      Equal I J = some true :=
  ⟨by decide, by decide,
    Intersection_contract (NewSet [1, 2, 3]) (NewSet [3, 2]) (by decide) (by decide)⟩

/-- C4: for all sets A and B whose locks can be read-acquired, `SymmetricDifference(A, B)` is
`Equal` to `Union(Difference(A, B), Difference(B, A))`, all four calls returning a set, and a
value exists in it iff it exists in exactly one of A and B. -/
theorem SymmetricDifference_contract (A B : set T) (hA : A.mu.w = false)
    (hB : B.mu.w = false) :
    ∃ S D1 D2 U, SymmetricDifference A B = some S ∧ Difference A B = some D1 ∧
      Difference B A = some D2 ∧ Union D1 D2 = some U ∧ Equal S U = some true ∧
      ∀ x, S.exists x = true ↔
        ((A.exists x = true ∧ B.exists x = false) ∨ (B.exists x = true ∧ A.exists x = false)) := by
  obtain ⟨S, hS, hSw, hSmem⟩ := SymmetricDifference_mem A B hA hB
  obtain ⟨D1, hD1, hD1w, hD1mem⟩ := Difference_mem A B hA hB
  obtain ⟨D2, hD2, hD2w, hD2mem⟩ := Difference_mem B A hB hA
  obtain ⟨U, hU, hUw, hUmem⟩ := Union_mem D1 D2 hD1w hD2w
  refine ⟨S, D1, D2, U, hS, hD1, hD2, hU, ?_, fun x => ?_⟩
  · rw [Equal_eq_true_iff S U hSw hUw]
    intro x
    rw [hSmem, hUmem, hD1mem, hD2mem]
  · rw [set.exists_iff, set.exists_iff, set.exists_iff, set.exists_false_iff,
      set.exists_false_iff]
    exact hSmem x

theorem SymmetricDifference_contract_witness :
    (NewSet [1, 2, 3] : set Int).mu.w = false ∧ (NewSet [2, 3, 4] : set Int).mu.w = false ∧
    ∃ S D1 D2 U, SymmetricDifference (NewSet [1, 2, 3] : set Int) (NewSet [2, 3, 4]) = some S ∧
      Difference (NewSet [1, 2, 3] : set Int) (NewSet [2, 3, 4]) = some D1 ∧
      Difference (NewSet [2, 3, 4] : set Int) (NewSet [1, 2, 3]) = some D2 ∧
      Union D1 D2 = some U ∧ Equal S U = some true ∧
      ∀ x, S.exists x = true ↔
        (((NewSet [1, 2, 3] : set Int).exists x = true ∧
            (NewSet [2, 3, 4] : set Int).exists x = false) ∨
          ((NewSet [2, 3, 4] : set Int).exists x = true ∧
            (NewSet [1, 2, 3] : set Int).exists x = false)) :=
  ⟨by decide, by decide,
    SymmetricDifference_contract (NewSet [1, 2, 3]) (NewSet [2, 3, 4]) (by decide) (by decide)⟩

/-! ## Equal and IsSubSet -/

/-- The test run by `Equal`, spelled out: same length and an empty `Difference`. -/
theorem Equal_eq_true_iff_test (A B : set T) (hA : A.mu.w = false) (hB : B.mu.w = false) :
    Equal A B = some true ↔
      (A.s.len = B.s.len ∧ ∃ D, Difference A B = some D ∧ D.s.len = 0) := by
  rw [Equal_eq A B hA hB, Difference_eq A B hA hB]
  by_cases hl : A.s.len = B.s.len
  · simp [hl]
  · simp [hl]

theorem Equal_returns (A B : set T) (hA : A.mu.w = false) (hB : B.mu.w = false) :
    ∃ b, Equal A B = some b :=
  ⟨_, Equal_eq A B hA hB⟩

theorem set.Empty_eq (s : set T) (h : s.mu.w = false) : s.Empty = some (s.s.len == 0) := by
  simp [set.Empty, set.muRLock_eq, h]

theorem set.Size_eq (s : set T) (h : s.mu.w = false) : s.Size = some s.s.len := by
  simp [set.Size, set.muRLock_eq, h]

theorem set.Empty_eq_some_true (s : set T) (h : s.Empty = some true) :
    s.mu.w = false ∧ s.s.len = 0 := by
  have hw : s.mu.w = false := by
    cases hw : s.mu.w
    · rfl
    · simp [set.Empty, set.muRLock, RWMutex.RLock, hw] at h
  rw [set.Empty_eq s hw] at h
  simp only [Option.some.injEq, beq_iff_eq] at h
  exact ⟨hw, h⟩

/-- C5: for all sets A and B whose locks can be read-acquired, `Equal(A, B)` returns a boolean
that is true iff every value exists in A exactly when it exists in B; and the implemented test
(same length, empty `Difference(A, B)`) is equivalent to mutual inclusion. -/
theorem Equal_contract (A B : set T) (hA : A.mu.w = false) (hB : B.mu.w = false) :
    (∃ b, Equal A B = some b ∧ (b = true ↔ ∀ x, A.exists x = B.exists x)) ∧
    ((A.s.len = B.s.len ∧ ∃ D, Difference A B = some D ∧ D.s.len = 0) ↔
      ((∀ x, A.exists x = true → B.exists x = true) ∧
        (∀ x, B.exists x = true → A.exists x = true))) := by
  have hmem : (∀ x, x ∈ A.s.keys ↔ x ∈ B.s.keys) ↔ ∀ x, A.exists x = B.exists x := by
    constructor
    · intro h x
      rw [Bool.eq_iff_iff, set.exists_iff, set.exists_iff]
      exact h x
    · intro h x
      rw [← set.exists_iff, ← set.exists_iff, h x]
  constructor
  · obtain ⟨b, hb⟩ := Equal_returns A B hA hB
    refine ⟨b, hb, ?_⟩
    have h := Equal_eq_true_iff A B hA hB
    rw [hb, Option.some.injEq, hmem] at h
    exact h
  · rw [← Equal_eq_true_iff_test A B hA hB, Equal_eq_true_iff A B hA hB]
    simp only [set.exists_iff]
    constructor
    · intro h
      exact ⟨fun x => (h x).1, fun x => (h x).2⟩
    · intro h x
      exact ⟨h.1 x, h.2 x⟩

theorem Equal_contract_witness :
    (NewSet [1, 2, 3] : set Int).mu.w = false ∧ (NewSet [3, 1, 2, 1] : set Int).mu.w = false ∧
    ((∃ b, Equal (NewSet [1, 2, 3] : set Int) (NewSet [3, 1, 2, 1]) = some b ∧
      (b = true ↔
        ∀ x, (NewSet [1, 2, 3] : set Int).exists x = (NewSet [3, 1, 2, 1] : set Int).exists x)) ∧
    (((NewSet [1, 2, 3] : set Int).s.len = (NewSet [3, 1, 2, 1] : set Int).s.len ∧
        ∃ D, Difference (NewSet [1, 2, 3] : set Int) (NewSet [3, 1, 2, 1]) = some D ∧
          D.s.len = 0) ↔
      ((∀ x, (NewSet [1, 2, 3] : set Int).exists x = true →
          (NewSet [3, 1, 2, 1] : set Int).exists x = true) ∧
        (∀ x, (NewSet [3, 1, 2, 1] : set Int).exists x = true →
          (NewSet [1, 2, 3] : set Int).exists x = true)))) :=
  ⟨by decide, by decide,
    Equal_contract (NewSet [1, 2, 3]) (NewSet [3, 1, 2, 1]) (by decide) (by decide)⟩

/-- C6: the code at `IsSubSet(NewSet(1), NewSet(1, 2))`: every value that exists in the
first set exists in the second one, the first set has fewer elements, and the call returns
false. -/
theorem IsSubSet_proper_subset_false :
    (∀ x, (NewSet [1] : set Int).exists x = true → (NewSet [1, 2] : set Int).exists x = true) ∧
    (NewSet [1] : set Int).Size = some 1 ∧ (NewSet [1, 2] : set Int).Size = some 2 ∧
    IsSubSet (NewSet [1] : set Int) (NewSet [1, 2]) = some false := by
  refine ⟨fun x hx => ?_, by decide, by decide, by decide⟩
  rw [set.exists_iff, mem_NewSet] at hx ⊢
  rw [List.mem_singleton] at hx
  subst hx
  decide

/-- C7: for every set A whose lock can be read-acquired, `IsSubSet(A, A)` returns true; and
for every empty set E, `IsSubSet(A, E)` returns a boolean that is true exactly when A is
empty. -/
theorem IsSubSet_self_and_empty (A E : set T) (hA : A.mu.w = false)
    (hE : E.Empty = some true) :
    IsSubSet A A = some true ∧
    ∃ b, IsSubSet A E = some b ∧ (b = true ↔ A.Empty = some true) := by
  obtain ⟨hEw, hElen⟩ := set.Empty_eq_some_true E hE
  constructor
  · rw [IsSubSet_eq A A hA hA]
    simp [set.exists, GoMap.lookup]
  · refine ⟨_, IsSubSet_eq A E hA hEw, ?_⟩
    rw [set.Empty_eq A hA, hElen]
    have hEkeys : E.s.keys = [] := List.length_eq_zero.1 hElen
    cases hk : A.s.keys with
    | nil => simp [GoMap.len, hk]
    | cons v rest => simp [GoMap.len, hk, set.exists, GoMap.lookup, hEkeys]

theorem IsSubSet_self_and_empty_witness :
    (NewSet [1, 2] : set Int).mu.w = false ∧ (NewEmptySet 0 : set Int).Empty = some true ∧
    (IsSubSet (NewSet [1, 2] : set Int) (NewSet [1, 2]) = some true ∧
    ∃ b, IsSubSet (NewSet [1, 2] : set Int) (NewEmptySet 0) = some b ∧
      (b = true ↔ (NewSet [1, 2] : set Int).Empty = some true)) :=
  ⟨by decide, by decide,
    IsSubSet_self_and_empty (NewSet [1, 2]) (NewEmptySet 0) (by decide) (by decide)⟩

/-! ## Insert, Delete, Pop -/

/-- The map left by `insert` depends on the map of the receiver only. -/
theorem set.insert_s (e : List T) (s t : set T) (h : s.s = t.s) :
    (s.insert e).s = (t.insert e).s := by
  unfold set.insert
  induction e generalizing s t with
  | nil => exact h
  | cons v rest ih =>
    rw [List.foldl_cons, List.foldl_cons]
    exact ih _ _ (by simp only [h])

theorem set.Insert_eq (s : set T) (h : s.mu = RWMutex.zero) (e : List T) :
    s.Insert e = some ⟨(s.insert e).s, RWMutex.zero⟩ := by
  rw [set.Insert, set.muLock_eq s h]
  simp only [Option.bind_eq_bind, Option.some_bind, set.muUnlock, set.insert_mu]
  rw [set.insert_s e { s with mu := ⟨true, 0⟩ } s rfl]
  rfl

theorem set.Delete_eq (s : set T) (h : s.mu = RWMutex.zero) (e : T) :
    s.Delete e = some ⟨s.s.delete e, RWMutex.zero⟩ := by
  rw [set.Delete, set.muLock_eq s h]
  rfl

/-- Inserting values that are all present changes nothing. -/
theorem set.insert_of_mem (e : List T) (s : set T) (h : ∀ x, x ∈ e → x ∈ s.s.keys) :
    s.insert e = s := by
  unfold set.insert
  induction e with
  | nil => rfl
  | cons v rest ih =>
    rw [List.foldl_cons, GoMap.store_of_mem s.s v (h v (List.mem_cons_self v rest))]
    exact ih (fun x hx => h x (List.mem_cons_of_mem v hx))

theorem set.Exists_eq_some_true (s : set T) (v : T) (h : s.Exists v = some true) :
    v ∈ s.s.keys := by
  have hw : s.mu.w = false := by
    cases hw : s.mu.w
    · rfl
    · simp [set.Exists, set.muRLock, RWMutex.RLock, hw] at h
  rw [set.Exists_eq s hw, Option.some.injEq, set.exists_iff] at h
  exact h

theorem set.Exists_eq_some_false (s : set T) (v : T) (h : s.Exists v = some false) :
    v ∉ s.s.keys := by
  have hw : s.mu.w = false := by
    cases hw : s.mu.w
    · rfl
    · simp [set.Exists, set.muRLock, RWMutex.RLock, hw] at h
  rw [set.Exists_eq s hw, Option.some.injEq, set.exists_false_iff] at h
  exact h

/-- Repeated single-value calls of `Insert` with a present value give back the same state. -/
theorem InsertTimes_of_mem (s : set T) (v : T) (h : s.mu = RWMutex.zero)
    (hv : v ∈ s.s.keys) (n : Nat) : InsertTimes s v n = some s := by
  induction n with
  | zero => rfl
  | succ n ih =>
    have hins : s.insert [v] = s := set.insert_of_mem [v] s (by
      intro x hx
      rw [List.mem_singleton] at hx
      exact hx ▸ hv)
    have hstep : s.Insert [v] = some s := by
      rw [set.Insert_eq s h, hins]
      cases s with
      | mk m mu =>
        simp only at h
        rw [h]
    rw [InsertTimes, hstep]
    exact ih

/-- The pop never gets past its size test: `Size` asks for the shared lock of a mutex that
`Pop` itself holds exclusively. -/
theorem set.Pop_eq_none [Inhabited T] (s : set T) : s.Pop = none := by
  unfold set.Pop
  cases hl : s.muLock with
  | none => rfl
  | some s1 =>
    have hw : s1.mu.w = true := by
      unfold set.muLock RWMutex.Lock at hl
      by_cases hc : s.mu.w = false ∧ s.mu.r = 0
      · simp [hc] at hl
        rw [← hl]
      · simp [hc] at hl
    have hsize : s1.Size = none := by
      simp [set.Size, set.muRLock, RWMutex.RLock, hw]
    simp only [Option.bind_eq_bind, Option.some_bind, hsize, Option.none_bind]

theorem NewSet_eq_insert (e : List T) : NewSet e = (NewEmptySet 0 : set T).insert e := rfl

/-- Building a set from one value repeated gives the set built from that value once. -/
theorem NewSet_replicate (v : T) (n : Nat) :
    NewSet (List.replicate (n + 1) v) = NewSet [v] := by
  rw [NewSet_eq_insert, NewSet_eq_insert, List.replicate_succ]
  have hsplit : (NewEmptySet 0 : set T).insert (v :: List.replicate n v)
      = ((NewEmptySet 0 : set T).insert [v]).insert (List.replicate n v) := by
    simp only [set.insert, List.foldl_cons, List.foldl_nil]
  rw [hsplit]
  apply set.insert_of_mem
  intro x hx
  rw [List.eq_of_mem_replicate hx, set.mem_insert]
  exact Or.inl (List.mem_singleton_self v)

theorem NewSet_singleton_len (v : T) : (NewSet [v]).s.len = 1 := by
  simp [NewSet_eq_insert, set.insert, NewEmptySet, GoMap.make, GoMap.store, GoMap.len]

/-- C8: Insert is idempotent.  For every set S with a free lock and every value v:
`S.Insert(v)` returns, afterwards `Exists(v)` is true, and when v was absent `Size()` has grown
by exactly one.  Once v exists in S, inserting v again any number of times, in one variadic
call or in successive calls, leaves `Size()` and `Exists(x)` for every x unchanged; `NewSet` of
v repeated has size one and holds v only; and `NewSet(1,1,1,1).Size()` is 1. -/
theorem Insert_idempotent (S : set T) (v : T) (hS : S.mu = RWMutex.zero) :
    (∃ S1, S.Insert [v] = some S1 ∧ S1.mu = RWMutex.zero ∧ S1.Exists v = some true ∧
      (S.Exists v = some false → ∃ n, S.Size = some n ∧ S1.Size = some (n + 1))) ∧
    (S.Exists v = some true →
      (∀ n, ∃ S2, S.Insert (List.replicate n v) = some S2 ∧ S2.Size = S.Size ∧
        ∀ x, S2.Exists x = S.Exists x) ∧
      (∀ n, ∃ S2, InsertTimes S v n = some S2 ∧ S2.Size = S.Size ∧
        ∀ x, S2.Exists x = S.Exists x)) ∧
    (∀ n, (NewSet (List.replicate (n + 1) v)).Size = some 1 ∧
      ∀ x, (NewSet (List.replicate (n + 1) v)).Exists x = some (decide (x = v))) ∧
    (NewSet [1, 1, 1, 1] : set Int).Size = some 1 := by
  have hSw : S.mu.w = false := by rw [hS]; rfl
  refine ⟨?_, ?_, ?_, by decide⟩
  · refine ⟨_, set.Insert_eq S hS [v], rfl, ?_, ?_⟩
    · rw [set.Exists_eq _ rfl, Option.some.injEq, set.exists_iff, set.mem_insert]
      exact Or.inl (List.mem_singleton_self v)
    · intro hv
      have hv1 : v ∉ S.s.keys := set.Exists_eq_some_false S v hv
      refine ⟨S.s.len, set.Size_eq S hSw, ?_⟩
      rw [set.Size_eq _ rfl]
      exact congrArg some (GoMap.len_store_of_not_mem S.s v hv1)
  · intro hv
    have hv1 : v ∈ S.s.keys := set.Exists_eq_some_true S v hv
    have hzero : (⟨S.s, RWMutex.zero⟩ : set T) = S := by
      cases S with
      | mk m mu =>
        simp only at hS
        rw [hS]
    constructor
    · intro n
      refine ⟨S, ?_, rfl, fun _ => rfl⟩
      rw [set.Insert_eq S hS, set.insert_of_mem (List.replicate n v) S
        (fun x hx => (List.eq_of_mem_replicate hx) ▸ hv1)]
      exact congrArg some hzero
    · intro n
      exact ⟨S, InsertTimes_of_mem S v hS hv1 n, rfl, fun _ => rfl⟩
  · intro n
    rw [NewSet_replicate]
    have hw : (NewSet [v]).mu.w = false := by rw [NewSet_mu]; rfl
    refine ⟨?_, fun x => ?_⟩
    · rw [set.Size_eq _ hw, NewSet_singleton_len]
    · rw [set.Exists_eq _ hw, Option.some.injEq, Bool.eq_iff_iff, set.exists_iff, mem_NewSet]
      simp

theorem Insert_idempotent_witness :
    (NewSet [1, 2, 3] : set Int).mu = RWMutex.zero ∧
    ((∃ S1, (NewSet [1, 2, 3] : set Int).Insert [4] = some S1 ∧ S1.mu = RWMutex.zero ∧
        S1.Exists 4 = some true ∧
      ((NewSet [1, 2, 3] : set Int).Exists 4 = some false →
        ∃ n, (NewSet [1, 2, 3] : set Int).Size = some n ∧ S1.Size = some (n + 1))) ∧
    ((NewSet [1, 2, 3] : set Int).Exists 4 = some true →
      (∀ n, ∃ S2, (NewSet [1, 2, 3] : set Int).Insert (List.replicate n 4) = some S2 ∧
        S2.Size = (NewSet [1, 2, 3] : set Int).Size ∧
        ∀ x, S2.Exists x = (NewSet [1, 2, 3] : set Int).Exists x) ∧
      (∀ n, ∃ S2, InsertTimes (NewSet [1, 2, 3] : set Int) 4 n = some S2 ∧
        S2.Size = (NewSet [1, 2, 3] : set Int).Size ∧
        ∀ x, S2.Exists x = (NewSet [1, 2, 3] : set Int).Exists x)) ∧
    (∀ n, (NewSet (List.replicate (n + 1) (4 : Int))).Size = some 1 ∧
      ∀ x, (NewSet (List.replicate (n + 1) (4 : Int))).Exists x = some (decide (x = 4))) ∧
    (NewSet [1, 1, 1, 1] : set Int).Size = some 1) :=
  ⟨by decide, Insert_idempotent (NewSet [1, 2, 3]) 4 (by decide)⟩

/-- C9: for every set S with a free lock and every value v, `S.Delete(v)` returns (it cannot
fail); afterwards `Exists(v)` is false, `Exists(x)` is unchanged for every other x, and
`Size()` is one less when v was present and unchanged when v was absent. -/
theorem Delete_contract (S : set T) (v : T) (hS : S.mu = RWMutex.zero) :
    ∃ S1, S.Delete v = some S1 ∧ S1.Exists v = some false ∧
      (∀ x, x ≠ v → S1.Exists x = S.Exists x) ∧
      (S.Exists v = some true → ∃ n, S1.Size = some n ∧ S.Size = some (n + 1)) ∧
      (S.Exists v = some false → S1.Size = S.Size) := by
  have hSw : S.mu.w = false := by rw [hS]; rfl
  refine ⟨_, set.Delete_eq S hS v, ?_, ?_, ?_, ?_⟩
  · rw [set.Exists_eq _ rfl, Option.some.injEq, set.exists_false_iff, GoMap.mem_delete]
    exact fun h => h.1 rfl
  · intro x hx
    rw [set.Exists_eq _ rfl, set.Exists_eq S hSw, Option.some.injEq, Bool.eq_iff_iff,
      set.exists_iff, set.exists_iff, GoMap.mem_delete]
    exact ⟨fun h => h.2, fun h => ⟨hx, h⟩⟩
  · intro hv
    have hv1 : v ∈ S.s.keys := set.Exists_eq_some_true S v hv
    refine ⟨(S.s.delete v).len, set.Size_eq _ rfl, ?_⟩
    rw [set.Size_eq S hSw, GoMap.len_delete_of_mem S.s v hv1]
  · intro hv
    have hv1 : v ∉ S.s.keys := set.Exists_eq_some_false S v hv
    rw [set.Size_eq _ rfl, set.Size_eq S hSw, GoMap.delete_of_not_mem S.s v hv1]

theorem Delete_contract_witness :
    (NewSet [1, 2, 3] : set Int).mu = RWMutex.zero ∧
    ∃ S1, (NewSet [1, 2, 3] : set Int).Delete 3 = some S1 ∧ S1.Exists 3 = some false ∧
      (∀ x, x ≠ 3 → S1.Exists x = (NewSet [1, 2, 3] : set Int).Exists x) ∧
      ((NewSet [1, 2, 3] : set Int).Exists 3 = some true →
        ∃ n, S1.Size = some n ∧ (NewSet [1, 2, 3] : set Int).Size = some (n + 1)) ∧
      ((NewSet [1, 2, 3] : set Int).Exists 3 = some false →
        S1.Size = (NewSet [1, 2, 3] : set Int).Size) :=
  ⟨by decide, Delete_contract (NewSet [1, 2, 3]) 3 (by decide)⟩

/-- C10: the code at `NewSet(1).Pop()`: the set is not empty, holds 1, its lock is free, and
the call does not return: no value comes back and no element is removed. -/
theorem Pop_blocks_on_nonempty :
    (NewSet [1] : set Int).Size = some 1 ∧ (NewSet [1] : set Int).Exists 1 = some true ∧
    (NewSet [1] : set Int).mu = RWMutex.zero ∧ (NewSet [1] : set Int).Pop = none := by
  decide

/-! ## Loops that remove keys from the map they range over -/

/-- A loop that removes the visited keys failing `p` leaves the keys that pass `p`, or that
were not among the keys to visit. -/
theorem rangeMut_delete_unless (p : T → Bool) (l : List T) (s : set T) :
    ∃ s1, rangeMut (fun s val => if !p val then some (s.delete val) else some s) l s = some s1 ∧
      s1.mu = s.mu ∧ ∀ x, x ∈ s1.s.keys ↔ (x ∈ s.s.keys ∧ (x ∈ l → p x = true)) := by
  induction l generalizing s with
  | nil => exact ⟨s, rfl, rfl, fun x => by simp⟩
  | cons val rest ih =>
    by_cases hval : s.exists val = true
    · by_cases hp : p val = true
      · obtain ⟨s1, h1, hmu, hmem⟩ := ih s
        refine ⟨s1, ?_, hmu, fun x => ?_⟩
        · simp only [rangeMut, hval, if_true, hp, Bool.not_true, Bool.false_eq_true, if_false,
            Option.some_bind]
          exact h1
        · rw [hmem x, List.mem_cons]
          constructor
          · rintro ⟨hx, hr⟩
            refine ⟨hx, ?_⟩
            rintro (rfl | hxr)
            · exact hp
            · exact hr hxr
          · rintro ⟨hx, hr⟩
            exact ⟨hx, fun hxr => hr (Or.inr hxr)⟩
      · obtain ⟨s1, h1, hmu, hmem⟩ := ih (s.delete val)
        have hpf : p val = false := by simpa using hp
        refine ⟨s1, ?_, hmu, fun x => ?_⟩
        · simp only [rangeMut, hval, if_true, hpf, Bool.not_false, Option.some_bind]
          exact h1
        · rw [hmem x, List.mem_cons]
          have hdel : x ∈ (s.delete val).s.keys ↔ x ≠ val ∧ x ∈ s.s.keys :=
            GoMap.mem_delete s.s val x
          rw [hdel]
          constructor
          · rintro ⟨⟨hne, hx⟩, hr⟩
            refine ⟨hx, ?_⟩
            rintro (rfl | hxr)
            · exact absurd rfl hne
            · exact hr hxr
          · rintro ⟨hx, hr⟩
            refine ⟨⟨?_, hx⟩, fun hxr => hr (Or.inr hxr)⟩
            rintro rfl
            exact hp (hr (Or.inl rfl))
    · obtain ⟨s1, h1, hmu, hmem⟩ := ih s
      have hnot : val ∉ s.s.keys := fun h => hval ((set.exists_iff s val).2 h)
      refine ⟨s1, ?_, hmu, fun x => ?_⟩
      · simp only [rangeMut, hval, if_false]
        exact h1
      · rw [hmem x, List.mem_cons]
        constructor
        · rintro ⟨hx, hr⟩
          refine ⟨hx, ?_⟩
          rintro (rfl | hxr)
          · exact absurd hx hnot
          · exact hr hxr
        · rintro ⟨hx, hr⟩
          exact ⟨hx, fun hxr => hr (Or.inr hxr)⟩

/-- Deleting the values of a list one after the other. -/
theorem mem_foldl_delete (l : List T) (s : set T) (x : T) :
    x ∈ (l.foldl (fun acc v => acc.delete v) s).s.keys ↔ (x ∈ s.s.keys ∧ x ∉ l) := by
  induction l generalizing s with
  | nil => simp
  | cons v rest ih =>
    rw [List.foldl_cons, ih]
    have hdel : x ∈ (s.delete v).s.keys ↔ x ≠ v ∧ x ∈ s.s.keys := GoMap.mem_delete s.s v x
    rw [hdel, List.mem_cons]
    tauto

theorem foldl_delete_mu (l : List T) (s : set T) :
    (l.foldl (fun acc v => acc.delete v) s).mu = s.mu := by
  induction l generalizing s with
  | nil => rfl
  | cons v rest ih =>
    rw [List.foldl_cons, ih]
    rfl

theorem foldl_insert_mu (l : List T) (s : set T) :
    (l.foldl (fun acc v => acc.insert [v]) s).mu = s.mu := by
  have h := foldl_insert_if_mu (fun _ => true) l s
  simpa using h

/-- What `Filter` leaves in the set. -/
theorem set.Filter_mem (S : set T) (f : T → Bool) (hS : S.mu = RWMutex.zero) :
    ∃ S1, S.Filter f = some S1 ∧ S1.mu = RWMutex.zero ∧
      ∀ x, x ∈ S1.s.keys ↔ (x ∈ S.s.keys ∧ f x = true) := by
  obtain ⟨s1, h1, hmu, hmem⟩ :=
    rangeMut_delete_unless f S.s.keys ({ S with mu := ⟨true, 0⟩ } : set T)
  refine ⟨s1.muUnlock, ?_, ?_, fun x => ?_⟩
  · rw [set.Filter, set.muLock_eq S hS]
    simp only [Option.bind_eq_bind, Option.some_bind, GoMap.range]
    rw [h1]
    rfl
  · simp only [set.muUnlock, RWMutex.Unlock, hmu]
    rfl
  · have : x ∈ s1.muUnlock.s.keys ↔ x ∈ s1.s.keys := Iff.rfl
    rw [this, hmem x]
    constructor
    · rintro ⟨hx, hr⟩
      exact ⟨hx, hr hx⟩
    · rintro ⟨hx, hr⟩
      exact ⟨hx, fun _ => hr⟩

theorem getCountWorkers_guard (countWorkers lenSet : Nat) (h : 0 < countWorkers) :
    ¬ (getCountWorkers countWorkers lenSet = 0 ∧ lenSet ≠ 0) := by
  unfold getCountWorkers
  omega

/-- What `FilterAsync` leaves in the set, for every order of the workers. -/
theorem set.FilterAsync_mem (countWorkers : Nat) (S : set T) (f : T → Bool) (order : List T)
    (hS : S.mu = RWMutex.zero) (hcpu : 0 < countWorkers) (horder : order.Perm S.s.range) :
    ∃ S1, S.FilterAsync countWorkers f order = some S1 ∧ S1.mu = RWMutex.zero ∧
      ∀ x, x ∈ S1.s.keys ↔ (x ∈ S.s.keys ∧ f x = true) := by
  refine ⟨((order.filter (fun v => !f v)).foldl (fun acc v => acc.delete v)
    ({ S with mu := ⟨true, 0⟩ } : set T)).muUnlock, ?_, ?_, fun x => ?_⟩
  · rw [set.FilterAsync, set.muLock_eq S hS]
    simp only [Option.bind_eq_bind, Option.some_bind,
      getCountWorkers_guard countWorkers S.s.len hcpu, if_false]
    rfl
  · simp only [set.muUnlock, RWMutex.Unlock, foldl_delete_mu]
    rfl
  · have hx : x ∈ (((order.filter (fun v => !f v)).foldl (fun acc v => acc.delete v)
        ({ S with mu := ⟨true, 0⟩ } : set T)).muUnlock).s.keys ↔
        x ∈ ((order.filter (fun v => !f v)).foldl (fun acc v => acc.delete v)
        ({ S with mu := ⟨true, 0⟩ } : set T)).s.keys := Iff.rfl
    rw [hx, mem_foldl_delete, List.mem_filter]
    have hord : x ∈ order ↔ x ∈ S.s.keys := horder.mem_iff
    rw [hord]
    cases hf : f x <;> simp

/-- What `DoAsync` leaves in the set, for every order of the workers. -/
theorem set.DoAsync_mem (countWorkers : Nat) (S : set T) (f : T → T) (order : List T)
    (hS : S.mu = RWMutex.zero) (hcpu : 0 < countWorkers) (horder : order.Perm S.s.range) :
    ∃ S1, S.DoAsync countWorkers f order = some S1 ∧ S1.mu = RWMutex.zero ∧
      ∀ y, y ∈ S1.s.keys ↔ ∃ v, v ∈ S.s.keys ∧ f v = y := by
  refine ⟨((order.map f).foldl (fun acc v => acc.insert [v])
    (({ S with mu := ⟨true, 0⟩ } : set T).clear)).muUnlock, ?_, ?_, fun y => ?_⟩
  · rw [set.DoAsync, set.muLock_eq S hS]
    simp only [Option.bind_eq_bind, Option.some_bind,
      getCountWorkers_guard countWorkers S.s.len hcpu, if_false]
    rfl
  · simp only [set.muUnlock, RWMutex.Unlock, foldl_insert_mu]
    rfl
  · have hy : y ∈ (((order.map f).foldl (fun acc v => acc.insert [v])
        (({ S with mu := ⟨true, 0⟩ } : set T).clear)).muUnlock).s.keys ↔
        y ∈ ((order.map f).foldl (fun acc v => acc.insert [v])
        (({ S with mu := ⟨true, 0⟩ } : set T).clear)).s.keys := Iff.rfl
    rw [hy, mem_foldl_insert, List.mem_map]
    have hclear : y ∉ (({ S with mu := ⟨true, 0⟩ } : set T).clear).s.keys := by
      simp [set.clear, GoMap.clear]
    constructor
    · rintro (h | ⟨v, hv, hfv⟩)
      · exact absurd h hclear
      · exact ⟨v, horder.mem_iff.1 hv, hfv⟩
    · rintro ⟨v, hv, hfv⟩
      exact Or.inr ⟨v, horder.mem_iff.2 hv, hfv⟩

/-! ## Pop on the empty set -/

/-- C11: the code at `NewEmptySet(0).Pop()`: the set is empty, its lock is free, and the call
does not return, so no zero value comes back. -/
theorem Pop_blocks_on_empty :
    (NewEmptySet 0 : set Int).Empty = some true ∧
    (NewEmptySet 0 : set Int).mu = RWMutex.zero ∧ (NewEmptySet 0 : set Int).Pop = none := by
  decide

/-! ## Do, DoAsync, Filter, FilterAsync -/

/-- C12: the code at `NewSet(1,2,3).Do(x -> x*2)` when the loop visits 1, 2, 3 in this order:
the call returns a set that is `Equal` to `NewSet(4,6)`, not to `NewSet(2,4,6)`; the value 2,
which is `f(1)`, does not exist in it.  Visited in the order 3, 2, 1 the same set ends as
`NewSet(2,4,6)`. -/
theorem Do_loses_a_result :
    (((NewSet [1, 2, 3] : set Int).Do (fun x => x * 2)).bind
      (fun s => Equal s (NewSet [2, 4, 6]))) = some false ∧
    (((NewSet [1, 2, 3] : set Int).Do (fun x => x * 2)).bind
      (fun s => Equal s (NewSet [4, 6]))) = some true ∧
    (((NewSet [1, 2, 3] : set Int).Do (fun x => x * 2)).bind
      (fun s => s.Exists 2)) = some false ∧
    (((NewSet [3, 2, 1] : set Int).Do (fun x => x * 2)).bind
      (fun s => Equal s (NewSet [2, 4, 6]))) = some true := by
  decide

/-- C13: for every set S with a free lock, every function f, at least one worker allowed, and
every order in which the workers deposit their results, `S.DoAsync(f)` returns and a value
exists in the set afterwards iff it is `f(v)` for some v that existed in S before; the values
deposited are the `f(v)`, one for each original element; and `DoAsync(x -> x*2)` on
`NewSet(1,2,3)` ends `Equal` to `NewSet(2,4,6)` for every order. -/
theorem DoAsync_contract (countWorkers : Nat) (S : set T) (f : T → T) (order : List T)
    (hS : S.mu = RWMutex.zero) (hcpu : 0 < countWorkers) (horder : order.Perm S.s.range) :
    (∃ S1, S.DoAsync countWorkers f order = some S1 ∧
      ∀ y, S1.exists y = true ↔ ∃ v, S.exists v = true ∧ f v = y) ∧
    (order.map f).Perm (S.s.range.map f) ∧
    (∀ order3 : List Int, order3.Perm [1, 2, 3] →
      (((NewSet [1, 2, 3] : set Int).DoAsync countWorkers (fun x => x * 2) order3).bind
        (fun s => Equal s (NewSet [2, 4, 6]))) = some true) := by
  refine ⟨?_, horder.map f, ?_⟩
  · obtain ⟨S1, h1, _, hmem⟩ := set.DoAsync_mem countWorkers S f order hS hcpu horder
    refine ⟨S1, h1, fun y => ?_⟩
    rw [set.exists_iff, hmem y]
    simp only [set.exists_iff]
  · intro order3 h3
    obtain ⟨S1, h1, hmu, hmem⟩ := set.DoAsync_mem countWorkers (NewSet [1, 2, 3] : set Int)
      (fun x => x * 2) order3 (NewSet_mu _) hcpu h3
    rw [h1, Option.some_bind, Equal_eq_true_iff S1 _ (by rw [hmu]; rfl)
      (by rw [NewSet_mu]; rfl)]
    intro y
    rw [hmem y, mem_NewSet]
    simp only [mem_NewSet, List.mem_cons, List.mem_singleton, List.not_mem_nil, or_false]
    constructor
    · rintro ⟨v, hv, rfl⟩
      omega
    · rintro (rfl | rfl | rfl)
      · exact ⟨1, Or.inl rfl, rfl⟩
      · exact ⟨2, Or.inr (Or.inl rfl), rfl⟩
      · exact ⟨3, Or.inr (Or.inr rfl), rfl⟩

theorem DoAsync_contract_witness :
    (NewSet [1, 2, 3] : set Int).mu = RWMutex.zero ∧ 0 < 2 ∧
    List.Perm [3, 1, 2] (NewSet [1, 2, 3] : set Int).s.range ∧
    ((∃ S1, (NewSet [1, 2, 3] : set Int).DoAsync 2 (fun x => x + 10) [3, 1, 2] = some S1 ∧
      ∀ y, S1.exists y = true ↔
        ∃ v, (NewSet [1, 2, 3] : set Int).exists v = true ∧ (fun x => x + 10) v = y) ∧
    (List.map (fun x => x + 10) [3, 1, 2]).Perm
      ((NewSet [1, 2, 3] : set Int).s.range.map (fun x => x + 10)) ∧
    (∀ order3 : List Int, order3.Perm [1, 2, 3] →
      (((NewSet [1, 2, 3] : set Int).DoAsync 2 (fun x => x * 2) order3).bind
        (fun s => Equal s (NewSet [2, 4, 6]))) = some true)) :=
  ⟨by decide, by decide, by decide,
    DoAsync_contract 2 (NewSet [1, 2, 3]) (fun x => x + 10) [3, 1, 2]
      (by decide) (by decide) (by decide)⟩

/-- C14: for every set S with a free lock and every predicate f, `S.Filter(f)` returns with
the lock released, and a value exists in the set afterwards iff it existed in S before and f
holds of it: nothing is added, every element failing f is removed, every element passing f
is kept, the deletions during the iteration notwithstanding. -/
theorem Filter_contract (S : set T) (f : T → Bool) (hS : S.mu = RWMutex.zero) :
    ∃ S1, S.Filter f = some S1 ∧ S1.mu = RWMutex.zero ∧
      (∀ x, S1.exists x = true ↔ (S.exists x = true ∧ f x = true)) ∧
      (∀ x, S1.exists x = true → S.exists x = true) ∧
      (∀ x, S.exists x = true → f x = false → S1.exists x = false) ∧
      (∀ x, S.exists x = true → f x = true → S1.exists x = true) := by
  obtain ⟨S1, h1, hmu, hmem⟩ := set.Filter_mem S f hS
  have hiff : ∀ x, S1.exists x = true ↔ (S.exists x = true ∧ f x = true) := by
    intro x
    rw [set.exists_iff, set.exists_iff]
    exact hmem x
  refine ⟨S1, h1, hmu, hiff, fun x hx => ((hiff x).1 hx).1, fun x _ hf => ?_,
    fun x hx hf => (hiff x).2 ⟨hx, hf⟩⟩
  cases h : S1.exists x
  · rfl
  · have := ((hiff x).1 h).2
    rw [hf] at this
    exact absurd this (by simp)

theorem Filter_contract_witness :
    (NewSet [1, 2, 3, 4] : set Int).mu = RWMutex.zero ∧
    ∃ S1, (NewSet [1, 2, 3, 4] : set Int).Filter (fun x => decide (x % 2 = 0)) = some S1 ∧
      S1.mu = RWMutex.zero ∧
      (∀ x, S1.exists x = true ↔
        ((NewSet [1, 2, 3, 4] : set Int).exists x = true ∧
          (fun x => decide (x % 2 = 0)) x = true)) ∧
      (∀ x, S1.exists x = true → (NewSet [1, 2, 3, 4] : set Int).exists x = true) ∧
      (∀ x, (NewSet [1, 2, 3, 4] : set Int).exists x = true →
        (fun x => decide (x % 2 = 0)) x = false → S1.exists x = false) ∧
      (∀ x, (NewSet [1, 2, 3, 4] : set Int).exists x = true →
        (fun x => decide (x % 2 = 0)) x = true → S1.exists x = true) :=
  ⟨by decide, Filter_contract (NewSet [1, 2, 3, 4]) (fun x => decide (x % 2 = 0)) (by decide)⟩

/-- C15: for every set S with a free lock, every predicate f, at least one worker allowed, and
every order in which the workers evaluate f and queue the elements to remove,
`S.FilterAsync(f)` and `S.Filter(f)` both return, `Equal` finds the two results equal, and a
value exists in the result iff it existed in S and f holds of it. -/
theorem FilterAsync_agrees_with_Filter (countWorkers : Nat) (S : set T) (f : T → Bool)
    (order : List T) (hS : S.mu = RWMutex.zero) (hcpu : 0 < countWorkers)
    (horder : order.Perm S.s.range) :
    ∃ S1 S2, S.FilterAsync countWorkers f order = some S1 ∧ S.Filter f = some S2 ∧
      Equal S1 S2 = some true ∧
      ∀ x, S1.exists x = true ↔ (S.exists x = true ∧ f x = true) := by
  obtain ⟨S1, h1, hmu1, hmem1⟩ := set.FilterAsync_mem countWorkers S f order hS hcpu horder
  obtain ⟨S2, h2, hmu2, hmem2⟩ := set.Filter_mem S f hS
  refine ⟨S1, S2, h1, h2, ?_, fun x => ?_⟩
  · rw [Equal_eq_true_iff S1 S2 (by rw [hmu1]; rfl) (by rw [hmu2]; rfl)]
    intro x
    rw [hmem1 x, hmem2 x]
  · rw [set.exists_iff, set.exists_iff]
    exact hmem1 x

theorem FilterAsync_agrees_with_Filter_witness :
    (NewSet [1, 2, 3, 4] : set Int).mu = RWMutex.zero ∧ 0 < 3 ∧
    List.Perm [4, 2, 1, 3] (NewSet [1, 2, 3, 4] : set Int).s.range ∧
    ∃ S1 S2, (NewSet [1, 2, 3, 4] : set Int).FilterAsync 3 (fun x => decide (x % 2 = 0))
        [4, 2, 1, 3] = some S1 ∧
      (NewSet [1, 2, 3, 4] : set Int).Filter (fun x => decide (x % 2 = 0)) = some S2 ∧
      Equal S1 S2 = some true ∧
      ∀ x, S1.exists x = true ↔
        ((NewSet [1, 2, 3, 4] : set Int).exists x = true ∧
          (fun x => decide (x % 2 = 0)) x = true) :=
  ⟨by decide, by decide, by decide,
    FilterAsync_agrees_with_Filter 3 (NewSet [1, 2, 3, 4]) (fun x => decide (x % 2 = 0))
      [4, 2, 1, 3] (by decide) (by decide) (by decide)⟩

/-! ## IntersectionUpdate -/

theorem set.muRUnlock_muRLock (O : set T) (hO : O.mu.w = false) :
    ({ O with mu := ⟨false, O.mu.r + 1⟩ } : set T).muRUnlock = O := by
  cases O with
  | mk m mu =>
    cases mu with
    | mk w r =>
      simp only at hO
      simp [set.muRUnlock, RWMutex.RUnlock, hO]

/-- What `IntersectionUpdate` leaves in the receiver, the argument being another object. -/
theorem set.IntersectionUpdate_mem (S O : set T) (hS : S.mu = RWMutex.zero)
    (hO : O.mu.w = false) :
    ∃ S1, S.IntersectionUpdate O = some (S1, O) ∧ S1.mu = RWMutex.zero ∧
      ∀ x, x ∈ S1.s.keys ↔ (x ∈ S.s.keys ∧ x ∈ O.s.keys) := by
  have hbody : (fun (s : set T) (val : T) => (do
      let found ← ({ O with mu := ⟨false, O.mu.r + 1⟩ } : set T).Exists val
      if !found then
        return s.delete val
      return s : Option (set T))) =
      (fun s val => if !O.exists val then some (s.delete val) else some s) := by
    funext s val
    rw [set.Exists_eq _ rfl]
    simp only [Option.bind_eq_bind, Option.some_bind, set.exists]
    by_cases h : O.s.lookup val = true
    · simp [h]
    · simp [h]
  obtain ⟨s1, h1, hmu, hmem⟩ := rangeMut_delete_unless (fun v => O.exists v) S.s.keys
    ({ S with mu := ⟨true, 0⟩ } : set T)
  refine ⟨s1.muUnlock, ?_, ?_, fun x => ?_⟩
  · rw [set.IntersectionUpdate, set.muRLock_eq O hO, Option.bind_eq_bind, Option.some_bind,
      set.muLock_eq S hS, Option.some_bind, hbody]
    simp only [GoMap.range]
    rw [h1, Option.some_bind, set.muRUnlock_muRLock O hO]
    rfl
  · simp only [set.muUnlock, RWMutex.Unlock, hmu]
    rfl
  · have hx : x ∈ s1.muUnlock.s.keys ↔ x ∈ s1.s.keys := Iff.rfl
    rw [hx, hmem x]
    constructor
    · rintro ⟨hx, hr⟩
      exact ⟨hx, (set.exists_iff O x).1 (hr hx)⟩
    · rintro ⟨hx, hr⟩
      exact ⟨hx, fun _ => (set.exists_iff O x).2 hr⟩

/-- A set used as its own argument: the exclusive lock is requested from the mutex that the
call has just read-locked, and is never granted. -/
theorem set.IntersectionUpdateSelf_eq_none (S : set T) : S.IntersectionUpdateSelf = none := by
  unfold set.IntersectionUpdateSelf
  cases hl : S.muRLock with
  | none => rfl
  | some s1 =>
    have hr : s1.mu.r ≠ 0 := by
      unfold set.muRLock RWMutex.RLock at hl
      by_cases hc : S.mu.w = false
      · simp [hc] at hl
        rw [← hl]
        simp
      · simp [hc] at hl
    have hlock : s1.muLock = none := by
      simp [set.muLock, RWMutex.Lock, hr]
    simp only [Option.bind_eq_bind, Option.some_bind, hlock, Option.none_bind]

/-- C16, as stated, fails when receiver and argument are the same object:
`s.IntersectionUpdate(s)` on `NewSet(1,2)`, whose lock is free, does not return. -/
theorem IntersectionUpdate_self_blocks :
    (NewSet [1, 2] : set Int).mu = RWMutex.zero ∧
    (NewSet [1, 2] : set Int).IntersectionUpdateSelf = none := by
  decide

/-- C16, amended: for every set S with a free lock and every other set object O whose lock can
be read-acquired, `S.IntersectionUpdate(O)` returns, O is unchanged, the receiver is `Equal`
to `Intersection(S_before, O)`, and a value exists in it iff it existed in both S and O.  With
the receiver itself as argument the call never returns. -/
theorem IntersectionUpdate_contract (S O : set T) (hS : S.mu = RWMutex.zero)
    (hO : O.mu.w = false) :
    (∃ S1 I, S.IntersectionUpdate O = some (S1, O) ∧ Intersection S O = some I ∧
      Equal S1 I = some true ∧
      ∀ x, S1.exists x = true ↔ (S.exists x = true ∧ O.exists x = true)) ∧
    S.IntersectionUpdateSelf = none := by
  refine ⟨?_, set.IntersectionUpdateSelf_eq_none S⟩
  have hSw : S.mu.w = false := by rw [hS]; rfl
  obtain ⟨S1, h1, hmu, hmem⟩ := set.IntersectionUpdate_mem S O hS hO
  obtain ⟨I, hI, hIw, hImem⟩ := Intersection_mem S O hSw hO
  refine ⟨S1, I, h1, hI, ?_, fun x => ?_⟩
  · rw [Equal_eq_true_iff S1 I (by rw [hmu]; rfl) hIw]
    intro x
    rw [hmem x, hImem x]
  · rw [set.exists_iff, set.exists_iff, set.exists_iff]
    exact hmem x

theorem IntersectionUpdate_contract_witness :
    (NewSet [1, 2, 3] : set Int).mu = RWMutex.zero ∧ (NewSet [2, 3, 4] : set Int).mu.w = false ∧
    ((∃ S1 I, (NewSet [1, 2, 3] : set Int).IntersectionUpdate (NewSet [2, 3, 4])
        = some (S1, NewSet [2, 3, 4]) ∧
      Intersection (NewSet [1, 2, 3] : set Int) (NewSet [2, 3, 4]) = some I ∧
      Equal S1 I = some true ∧
      ∀ x, S1.exists x = true ↔
        ((NewSet [1, 2, 3] : set Int).exists x = true ∧
          (NewSet [2, 3, 4] : set Int).exists x = true)) ∧
    (NewSet [1, 2, 3] : set Int).IntersectionUpdateSelf = none) :=
  ⟨by decide, by decide,
    IntersectionUpdate_contract (NewSet [1, 2, 3]) (NewSet [2, 3, 4]) (by decide) (by decide)⟩

/-! ## MarshalJSON and UnmarshalJSON -/

theorem foldl_append_singleton (l init : List T) :
    l.foldl (fun acc val => acc ++ [val]) init = init ++ l := by
  induction l generalizing init with
  | nil => simp
  | cons v rest ih =>
    rw [List.foldl_cons, ih]
    simp

theorem set.ToSlice_eq (S : set T) (hS : S.mu.w = false) : S.ToSlice = some S.s.keys := by
  rw [set.ToSlice, set.muRLock_eq S hS]
  simp only [Option.bind_eq_bind, Option.some_bind, GoMap.range, foldl_append_singleton]
  rfl

/-- A payload that decodes replaces the elements of the target by the decoded values. -/
theorem set.UnmarshalJSON_ok {E : Type} (unmarshal : List Nat → Except E (List T)) (D : set T)
    (data : List Nat) (l : List T) (hD : D.mu = RWMutex.zero)
    (hl : unmarshal data = Except.ok l) :
    ∃ D1, D.UnmarshalJSON unmarshal data = some (none, D1) ∧ D1.mu = RWMutex.zero ∧
      ∀ x, x ∈ D1.s.keys ↔ x ∈ l := by
  refine ⟨((({ D with mu := ⟨true, 0⟩ } : set T).clear).extendFromSlice l).muUnlock,
    ?_, ?_, fun x => ?_⟩
  · rw [set.UnmarshalJSON, set.muLock_eq D hD]
    simp only [Option.bind_eq_bind, Option.some_bind, hl]
    rfl
  · simp only [set.muUnlock, RWMutex.Unlock, set.extendFromSlice, foldl_insert_mu]
    rfl
  · have hx : x ∈ ((({ D with mu := ⟨true, 0⟩ } : set T).clear).extendFromSlice l).muUnlock.s.keys
        ↔ x ∈ ((({ D with mu := ⟨true, 0⟩ } : set T).clear).extendFromSlice l).s.keys := Iff.rfl
    rw [hx, set.extendFromSlice, mem_foldl_insert]
    simp [set.clear, GoMap.clear]

/-- C18: round trip, for a codec that decodes what it encodes.  For every set S whose lock can
be read-acquired and every target D with a free lock, whatever D holds: `S.MarshalJSON()`
returns a payload, `D.UnmarshalJSON` of it returns no error and leaves D `Equal` to S, with
the same `exists` as S for every value; the same holds for any decoded sequence listing the
elements of S in any order, with or without repetitions; and a payload that decodes to the
empty sequence leaves D empty. -/
theorem JSON_round_trip {E : Type} (marshal : List T → Except E (List Nat))
    (unmarshal : List Nat → Except E (List T)) (S D : set T) (hS : S.mu.w = false)
    (hD : D.mu = RWMutex.zero)
    (hcodec : ∀ l, ∃ d, marshal l = Except.ok d ∧ unmarshal d = Except.ok l) :
    (∃ data D1, S.MarshalJSON marshal = some (Except.ok data) ∧
      D.UnmarshalJSON unmarshal data = some (none, D1) ∧ Equal D1 S = some true ∧
      ∀ x, D1.exists x = S.exists x) ∧
    (∀ data l, unmarshal data = Except.ok l → (∀ x, x ∈ l ↔ S.exists x = true) →
      ∃ D1, D.UnmarshalJSON unmarshal data = some (none, D1) ∧ Equal D1 S = some true) ∧
    (∀ data, unmarshal data = Except.ok [] →
      ∃ D1, D.UnmarshalJSON unmarshal data = some (none, D1) ∧ D1.Empty = some true) := by
  refine ⟨?_, ?_, ?_⟩
  · obtain ⟨data, hm, hu⟩ := hcodec S.s.keys
    obtain ⟨D1, h1, hmu, hmem⟩ := set.UnmarshalJSON_ok unmarshal D data S.s.keys hD hu
    refine ⟨data, D1, ?_, h1, ?_, fun x => ?_⟩
    · rw [set.MarshalJSON, set.ToSlice_eq S hS]
      simp only [Option.bind_eq_bind, Option.some_bind, hm]
      rfl
    · rw [Equal_eq_true_iff D1 S (by rw [hmu]; rfl) hS]
      exact hmem
    · rw [Bool.eq_iff_iff, set.exists_iff, set.exists_iff]
      exact hmem x
  · intro data l hl hmemS
    obtain ⟨D1, h1, hmu, hmem⟩ := set.UnmarshalJSON_ok unmarshal D data l hD hl
    refine ⟨D1, h1, ?_⟩
    rw [Equal_eq_true_iff D1 S (by rw [hmu]; rfl) hS]
    intro x
    rw [hmem x, hmemS x, set.exists_iff]
  · intro data hl
    obtain ⟨D1, h1, hmu, hmem⟩ := set.UnmarshalJSON_ok unmarshal D data [] hD hl
    refine ⟨D1, h1, ?_⟩
    rw [set.Empty_eq D1 (by rw [hmu]; rfl)]
    have hlen : D1.s.len = 0 := by
      rw [GoMap.len_eq_zero_iff]
      intro x hx
      exact absurd ((hmem x).1 hx) (List.not_mem_nil x)
    rw [hlen]
    rfl

theorem exampleCodec_round_trip (l : List Nat) :
    ∃ d, exampleMarshal l = Except.ok d ∧ exampleUnmarshal d = Except.ok l :=
  ⟨0 :: l, rfl, rfl⟩

theorem JSON_round_trip_witness :
    (NewSet [3, 1, 2] : set Nat).mu.w = false ∧ (NewSet [7, 8] : set Nat).mu = RWMutex.zero ∧
    (∀ l, ∃ d, exampleMarshal l = Except.ok d ∧ exampleUnmarshal d = Except.ok l) ∧
    ((∃ data D1, (NewSet [3, 1, 2] : set Nat).MarshalJSON exampleMarshal
        = some (Except.ok data) ∧
      (NewSet [7, 8] : set Nat).UnmarshalJSON exampleUnmarshal data = some (none, D1) ∧
      Equal D1 (NewSet [3, 1, 2]) = some true ∧
      ∀ x, D1.exists x = (NewSet [3, 1, 2] : set Nat).exists x) ∧
    (∀ data l, exampleUnmarshal data = Except.ok l →
      (∀ x, x ∈ l ↔ (NewSet [3, 1, 2] : set Nat).exists x = true) →
      ∃ D1, (NewSet [7, 8] : set Nat).UnmarshalJSON exampleUnmarshal data = some (none, D1) ∧
        Equal D1 (NewSet [3, 1, 2]) = some true) ∧
    (∀ data, exampleUnmarshal data = Except.ok [] →
      ∃ D1, (NewSet [7, 8] : set Nat).UnmarshalJSON exampleUnmarshal data = some (none, D1) ∧
        D1.Empty = some true)) :=
  ⟨by decide, by decide, exampleCodec_round_trip,
    JSON_round_trip exampleMarshal exampleUnmarshal (NewSet [3, 1, 2]) (NewSet [7, 8])
      (by decide) (by decide) exampleCodec_round_trip⟩

/-! ## Lock discipline of the single-set operations -/

/-- C20: the code at `NewSet(1,2).Pop()`, the lock being free at the call: `Pop` takes the
exclusive lock, the `Size` call it then makes asks the same mutex for the shared lock, which
is not granted, and `Pop` does not return. -/
theorem Pop_requests_lock_it_holds :
    (NewSet [1, 2] : set Int).mu = RWMutex.zero ∧
    ((NewSet [1, 2] : set Int).muLock.map (fun s => s.mu)) = some ⟨true, 0⟩ ∧
    ((NewSet [1, 2] : set Int).muLock.bind (fun s => s.Size)) = none ∧
    (NewSet [1, 2] : set Int).Pop = none := by
  decide

/-! ## IsSubSet as implemented -/

theorem IsSubSet_returns (A B : set T) (hA : A.mu.w = false) (hB : B.mu.w = false) :
    ∃ b, IsSubSet A B = some b :=
  ⟨_, IsSubSet_eq A B hA hB⟩

/-- The early exit and the loop of `IsSubSet` together accept exactly the pairs of sets with
the same elements. -/
theorem IsSubSet_eq_true_iff (A B : set T) (hA : A.mu.w = false) (hB : B.mu.w = false) :
    IsSubSet A B = some true ↔ ∀ x, x ∈ A.s.keys ↔ x ∈ B.s.keys := by
  rw [IsSubSet_eq A B hA hB]
  by_cases hl : A.s.len < B.s.len
  · simp only [hl, if_true, Option.some.injEq, Bool.false_eq_true, false_iff]
    intro h
    have := GoMap.len_eq_of_mem_iff A.s B.s h
    omega
  · simp only [hl, if_false, Option.some.injEq, List.all_eq_true, set.exists_iff]
    constructor
    · intro h x
      exact ⟨h x, GoMap.superset_of_subset_of_len_le A.s B.s h (Nat.le_of_not_lt hl) x⟩
    · intro h x hx
      exact (h x).1 hx

/-- Two calls that return booleans which are true in the same cases return the same. -/
theorem some_bool_eq_of_true_iff {o1 o2 : Option Bool} (h1 : ∃ b, o1 = some b)
    (h2 : ∃ b, o2 = some b) (h : o1 = some true ↔ o2 = some true) : o1 = o2 := by
  obtain ⟨b1, rfl⟩ := h1
  obtain ⟨b2, rfl⟩ := h2
  cases b1 <;> cases b2 <;> simp at h ⊢

/-- C21: as implemented, for all sets A and B whose locks can be read-acquired,
`IsSubSet(A, B)` returns a boolean and it is the one `Equal(A, B)` returns: a pair with
fewer elements in A than in B is rejected by the early exit, and an inclusion of A in B with
at least as many elements in A forces the same elements.  Hence `IsSubSet(A, B)` and
`IsSubSet(B, A)` return the same, and `IsSubSet(A, B)` is false whenever A is a proper subset
of B. -/
theorem IsSubSet_coincides_with_Equal (A B : set T) (hA : A.mu.w = false)
    (hB : B.mu.w = false) :
    (∃ b, IsSubSet A B = some b ∧ Equal A B = some b) ∧
    (A.s.len < B.s.len → IsSubSet A B = some false) ∧
    ((∀ x, A.exists x = true → B.exists x = true) → B.s.len ≤ A.s.len →
      ∀ x, A.exists x = B.exists x) ∧
    IsSubSet A B = IsSubSet B A ∧
    ((∀ x, A.exists x = true → B.exists x = true) →
      (∃ y, B.exists y = true ∧ A.exists y = false) → IsSubSet A B = some false) := by
  have hsame : IsSubSet A B = Equal A B :=
    some_bool_eq_of_true_iff (IsSubSet_returns A B hA hB) (Equal_returns A B hA hB)
      ((IsSubSet_eq_true_iff A B hA hB).trans (Equal_eq_true_iff A B hA hB).symm)
  refine ⟨?_, ?_, ?_, ?_, ?_⟩
  · obtain ⟨b, hb⟩ := IsSubSet_returns A B hA hB
    exact ⟨b, hb, hsame ▸ hb⟩
  · intro hl
    rw [IsSubSet_eq A B hA hB, if_pos hl]
  · intro hsub hl x
    have hsub1 : ∀ x, x ∈ A.s.keys → x ∈ B.s.keys := by
      intro x hx
      exact (set.exists_iff B x).1 (hsub x ((set.exists_iff A x).2 hx))
    rw [Bool.eq_iff_iff, set.exists_iff, set.exists_iff]
    exact ⟨hsub1 x, GoMap.superset_of_subset_of_len_le A.s B.s hsub1 hl x⟩
  · apply some_bool_eq_of_true_iff (IsSubSet_returns A B hA hB) (IsSubSet_returns B A hB hA)
    rw [IsSubSet_eq_true_iff A B hA hB, IsSubSet_eq_true_iff B A hB hA]
    exact ⟨fun h x => (h x).symm, fun h x => (h x).symm⟩
  · rintro _ ⟨y, hyB, hyA⟩
    obtain ⟨b, hb⟩ := IsSubSet_returns A B hA hB
    cases b with
    | false => exact hb
    | true =>
      have h := (IsSubSet_eq_true_iff A B hA hB).1 hb y
      have hyA1 : y ∉ A.s.keys := (set.exists_false_iff A y).1 hyA
      exact absurd (h.2 ((set.exists_iff B y).1 hyB)) hyA1

theorem IsSubSet_coincides_with_Equal_witness :
    (NewSet [1, 2] : set Int).mu.w = false ∧ (NewSet [1, 2, 3] : set Int).mu.w = false ∧
    ((∃ b, IsSubSet (NewSet [1, 2] : set Int) (NewSet [1, 2, 3]) = some b ∧
        Equal (NewSet [1, 2] : set Int) (NewSet [1, 2, 3]) = some b) ∧
    ((NewSet [1, 2] : set Int).s.len < (NewSet [1, 2, 3] : set Int).s.len →
      IsSubSet (NewSet [1, 2] : set Int) (NewSet [1, 2, 3]) = some false) ∧
    ((∀ x, (NewSet [1, 2] : set Int).exists x = true →
        (NewSet [1, 2, 3] : set Int).exists x = true) →
      (NewSet [1, 2, 3] : set Int).s.len ≤ (NewSet [1, 2] : set Int).s.len →
      ∀ x, (NewSet [1, 2] : set Int).exists x = (NewSet [1, 2, 3] : set Int).exists x) ∧
    IsSubSet (NewSet [1, 2] : set Int) (NewSet [1, 2, 3])
      = IsSubSet (NewSet [1, 2, 3] : set Int) (NewSet [1, 2]) ∧
    ((∀ x, (NewSet [1, 2] : set Int).exists x = true →
        (NewSet [1, 2, 3] : set Int).exists x = true) →
      (∃ y, (NewSet [1, 2, 3] : set Int).exists y = true ∧
        (NewSet [1, 2] : set Int).exists y = false) →
      IsSubSet (NewSet [1, 2] : set Int) (NewSet [1, 2, 3]) = some false)) :=
  ⟨by decide, by decide,
    IsSubSet_coincides_with_Equal (NewSet [1, 2]) (NewSet [1, 2, 3]) (by decide) (by decide)⟩

end GoSet
